import Mathlib

/-!
# Verification of the TutoBot orchestrator core (`agents.py`)

This file embeds the core orchestration logic of the repository — the
structured-output extractor `parse_json`, the task-executor parse step of
`TutoBot.run_agent`, the evaluation loop `TutoBot.run_with_evaluation`, the
pipeline `TutoBot.run_full_pipeline`, and the session helper
`TutoBot._get_or_create_session` — as executable Lean definitions, and proves
the specification's testable properties about them.

Modelling conventions:
* Python values flowing through the orchestrator (JSON-like data) are the
  inductive type `Val`; Python dictionaries are insertion-ordered association
  lists `Dict` with unique keys maintained by `dset`.
* Python text is `Str := List Char` (a Python `str` is a sequence of code
  points); `pyFind`/`pyRFind`/`pySlice` reproduce `str.find`, `str.rfind`
  and slicing including the `-1` not-found sentinel and negative-index
  semantics on the paths the code exercises.
* The external LLM agents are oracles: a `Behaviour` gives, for each
  iteration number, the dictionary that `run_agent` would return for the
  generator and for the evaluator.  The loop is embedded with explicit fuel
  `max_iterations - completed_iterations`; the `while iteration <
  max_iterations` test holds exactly when the fuel is positive.
* Fallible Python code is `Option`/`Except`; `PyErr` names the exception
  classes the embedded paths can raise (`AttributeError` from calling
  `.get` on a non-mapping, `KeyError` from `d[k]`, `TypeError` from
  iterating a non-sequence).
* `json.loads` / `json.dumps` are not part of the repository; they are
  modelled from the spec's "structured literal (mapping/sequence/scalar
  grammar)" with numbers restricted to integers (no float literals occur in
  any claim or scenario).
-/

/-- A Python/JSON-like value: `None`, booleans, integers, strings,
sequences and mappings.  Numbers are modelled as integers (see module
comment). -/
inductive Val where
  | null : Val
  | bool : Bool → Val
  | int : Int → Val
  | str : String → Val
  | arr : List Val → Val
  | obj : List (String × Val) → Val
deriving Repr

/-- A Python dictionary: an insertion-ordered association list. -/
abbrev Dict := List (String × Val)

/-- Dictionary lookup (`k in d` / `d[k]` when present). -/
def dget : Dict → String → Option Val
  | [], _ => none
  | (k, v) :: rest, key => if k = key then some v else dget rest key

/-- Python `d.get(key, default)`. -/
def dgetD (d : Dict) (key : String) (default : Val) : Val :=
  (dget d key).getD default

/-- Python `d[key] = v`: overwrite in place if the key exists (keeping its
position), otherwise append at the end. -/
def dset : Dict → String → Val → Dict
  | [], key, v => [(key, v)]
  | (k, w) :: rest, key, v =>
    if k = key then (k, v) :: rest else (k, w) :: dset rest key v

/-- Python `d.copy()`: a shallow copy.  In the pure value model a copy is
the same value; the heap model below makes the aliasing explicit. -/
def dcopy (d : Dict) : Dict := d

/-- The Python exceptions the embedded code paths can raise. -/
inductive PyErr where
  | attributeError : PyErr
  | keyError : PyErr
  | typeError : PyErr
deriving Repr, DecidableEq

/-- Oracle behaviour of the two external agents inside one evaluation loop:
`genOut k d` is the dictionary `run_agent(generator_name, d)` returns on
iteration `k`, and `evalOut k d` the dictionary `run_agent("evaluator", d)`
returns on iteration `k`. -/
structure Behaviour where
  genOut : Nat → Dict → Dict
  evalOut : Nat → Dict → Dict

/-- Python `status == "APPROVED"` for a dynamically typed `status`. -/
def isApproved : Val → Bool
  | .str s => s = "APPROVED"
  | _ => false

/-- Lines 246-251 of `agents.py`: the universal evaluator's input. -/
def mkEvalInput (generator_name : String) (original_instruction : Val)
    (input_data : Dict) (result : Dict) : Dict :=
  [("generator_name", .str generator_name),
   ("original_instruction", original_instruction),
   ("generator_inputs", .obj input_data),
   ("generator_output", .obj result)]

/-- Lines 256-258 of `agents.py`: unwrap `(status, quality_score, feedback)`
from the evaluation value with fail-closed defaults.  Python calls `.get`
on the value, which raises `AttributeError` when it is not a mapping;
that is the `none` case. -/
def derivedVerdict : Val → Option (Val × Val × Val)
  | .obj ev =>
    some (dgetD ev "status" (.str "REJECTED"),
          dgetD ev "quality_score" (.int 0),
          dgetD ev "feedback" (.str "No feedback provided"))
  | _ => none

/-- One generate/evaluate round trip (lines 237-254 of `agents.py`):
the generator input used, the generator's raw result, the unwrapped
`content`, and the unwrapped evaluation value. -/
structure IterLog where
  input : Dict
  result : Dict
  content : Val
  evaluation : Val

/-- Lines 237-254 as a function of the iteration number and the current
input: run the generator, unwrap `content` under the generator's output
key, run the evaluator on the assembled evaluation request, and unwrap
the `evaluation_result`. -/
def stepLog (B : Behaviour) (generator_name output_key : String)
    (original_instruction : Val) (input_data : Dict) (k : Nat) (cur : Dict) :
    IterLog :=
  let result := B.genOut k cur
  let content := dgetD result output_key (.obj result)
  let eval_result := B.evalOut k (mkEvalInput generator_name original_instruction input_data result)
  let evaluation := dgetD eval_result "evaluation_result" (.obj eval_result)
  ⟨cur, result, content, evaluation⟩

/-- The `{content, evaluation, iterations}` result dictionary. -/
def resultDict (content evaluation : Val) (iterations : Nat) : Dict :=
  [("content", content), ("evaluation", evaluation), ("iterations", .int iterations)]

/-- The exhaustion result dictionary, with the warning of line 280. -/
def resultDictW (content evaluation : Val) (iterations : Nat) : Dict :=
  [("content", content), ("evaluation", evaluation), ("iterations", .int iterations),
   ("warning", .str "Max iterations reached without approval")]

/-- The `while iteration < max_iterations` loop of
`TutoBot.run_with_evaluation` (lines 231-282 of `agents.py`), with fuel
`max_iterations - iter`; alongside the Python return value it returns the
log of the generate/evaluate round trips it performed, in order.
`iter` is the number of completed iterations; `content`/`evaluation` carry
the loop variables for the (only reachable when the loop never runs)
fall-through return of line 282. -/
def loopGo (B : Behaviour) (generator_name output_key : String)
    (original_instruction : Val) (input_data : Dict) :
    Nat → Nat → Dict → Val → Val → Except PyErr Dict × List IterLog
  | 0, iter, _cur, content, evaluation =>
    (.ok (resultDict content evaluation iter), [])
  | fuel + 1, iter, cur, _, _ =>
    let log := stepLog B generator_name output_key original_instruction input_data (iter + 1) cur
    match derivedVerdict log.evaluation with
    | some (status, _score, feedback) =>
      if isApproved status then
        (.ok (resultDict log.content log.evaluation (iter + 1)), [log])
      else if 0 < fuel then
        let next := loopGo B generator_name output_key original_instruction input_data
          fuel (iter + 1) (dset cur "previous_feedback" feedback) log.content log.evaluation
        (next.1, log :: next.2)
      else
        (.ok (resultDictW log.content log.evaluation (iter + 1)), [log])
    | none => (.error .attributeError, [log])

/-- `TutoBot.run_with_evaluation` (lines 206-282 of `agents.py`):
`current_input = input_data.copy()`, `iteration = 0`,
`content = evaluation = None`, then the loop. -/
def run_with_evaluation (B : Behaviour) (generator_name output_key : String)
    (original_instruction : Val) (input_data : Dict) (max_iterations : Nat) :
    Except PyErr Dict × List IterLog :=
  loopGo B generator_name output_key original_instruction input_data
    max_iterations 0 (dcopy input_data) .null .null

/-- Whether a logged round trip's verdict has `status == "APPROVED"`. -/
def approvedLog (l : IterLog) : Bool :=
  match derivedVerdict l.evaluation with
  | some (status, _, _) => isApproved status
  | none => false

/-- The feedback the loop would inject after a logged round trip. -/
def feedbackLog (l : IterLog) : Val :=
  match derivedVerdict l.evaluation with
  | some (_, _, feedback) => feedback
  | none => .null

/-- `week.get('week', 1)` of line 329, for a week entry known to be a
mapping. -/
def weekNumOf : Val → Val
  | .obj wd => dgetD wd "week" (.int 1)
  | _ => .int 1

/-- Line 330 of `agents.py`:
`{**teacher_input, 'curriculum': curriculum, 'week_number': week_num}`. -/
def mkLessonInput (teacher_input : Dict) (curriculum : Val) (week_num : Val) : Dict :=
  dset (dset teacher_input "curriculum" curriculum) "week_number" week_num

/-- Lines 328-333 of `agents.py`: the `for week in curriculum[:2]` loop.
Runs the lesson-design evaluation loop (budget 2) for each week entry,
extending `all_lessons` with each loop's `content.get('lessons', [])`.
Besides the Python outcome it returns the list of lesson-loop inputs, in
invocation order.  A non-mapping week raises `AttributeError`
(`week.get`); a non-sequence `lessons` value raises `TypeError`
(`list.extend`). -/
def lessonStage (Bl : Behaviour) (instrL : Val) (teacher_input : Dict) (curriculum : Val) :
    List Val → List Val → List Dict → Except PyErr (List Val) × List Dict
  | [], all_lessons, calls => (.ok all_lessons, calls)
  | week :: rest, all_lessons, calls =>
    match week with
    | .obj wd =>
      let lesson_input := mkLessonInput teacher_input curriculum (dgetD wd "week" (.int 1))
      match (run_with_evaluation Bl "lesson" "lessons" instrL lesson_input 2).1 with
      | .ok lr =>
        match dget lr "content" with
        | some (.obj lc) =>
          match dgetD lc "lessons" (.arr []) with
          | .arr ls =>
            lessonStage Bl instrL teacher_input curriculum rest (all_lessons ++ ls)
              (calls ++ [lesson_input])
          | _ => (.error .typeError, calls ++ [lesson_input])
        | some _ => (.error .attributeError, calls ++ [lesson_input])
        | none => (.error .keyError, calls ++ [lesson_input])
      | .error e => (.error e, calls ++ [lesson_input])
    | _ => (.error .attributeError, calls)

/-- `TutoBot.run_full_pipeline` (lines 284-370 of `agents.py`).  The four
loop/agent stages are oracles `Bp`, `Bl`, `Ba` (evaluation-loop
behaviours) and `Bx` (the export `run_agent` call); `fid`/`sid` are the
orchestrator's `folder_id`/`spreadsheet_id`.  Besides the Python result it
returns the list of lesson-loop inputs of step 2, in invocation order.
Python raises `KeyError` for a missing `result['content']` or
`teacher_input['board'|'grade'|'subject']`, `AttributeError` for `.get`
on a non-mapping, and `TypeError` when `curriculum` is not a sequence. -/
def run_full_pipeline (Bp Bl Ba : Behaviour) (Bx : Dict → Dict)
    (instrP instrL instrA : Val) (fid sid : Val) (teacher_input : Dict) :
    Except PyErr Dict × List Dict :=
  let tin := dset (dset teacher_input "folder_id" fid) "spreadsheet_id" sid
  match (run_with_evaluation Bp "planner" "curriculum" instrP tin 3).1 with
  | .error e => (.error e, [])
  | .ok curriculum_result =>
    match dget curriculum_result "content" with
    | none => (.error .keyError, [])
    | some contentP =>
      match contentP with
      | .obj cpd =>
        match dgetD cpd "curriculum" (.arr []) with
        | .arr units =>
          let step2 := lessonStage Bl instrL tin (.arr units) (units.take 2) [] []
          match step2.1 with
          | .error e => (.error e, step2.2)
          | .ok all_lessons =>
            let assessment_input :=
              dset (dset (dset tin "curriculum" (.arr units)) "week_number" (.int 1))
                "assessment_type" (.str "quiz")
            match (run_with_evaluation Ba "assessment" "assessments" instrA assessment_input 2).1 with
            | .error e => (.error e, step2.2)
            | .ok assessment_result =>
              match dget assessment_result "content" with
              | none => (.error .keyError, step2.2)
              | some contentA =>
                match dget tin "board", dget tin "grade", dget tin "subject" with
                | some b, some g, some s =>
                  let export_input :=
                    [("curriculum", contentP), ("lessons", .arr all_lessons),
                     ("assessments", .arr [contentA]), ("spreadsheet_id", sid),
                     ("teacher_info", .obj [("board", b), ("grade", g), ("subject", s)])]
                  let export_result := Bx export_input
                  (.ok [("curriculum", .obj curriculum_result), ("lessons", .arr all_lessons),
                        ("assessments", .obj assessment_result), ("export", .obj export_result)],
                   step2.2)
                | _, _, _ => (.error .keyError, step2.2)
        | _ => (.error .typeError, [])
      | _ => (.error .attributeError, [])

/-! ## Session registry (`TutoBot._get_or_create_session`, lines 148-160)

The session service is an oracle: `lookup` is the outcome of
`get_session` and `createInTry`/`createInHandler` the outcomes of the two
textual `create_session` calls (line 153 inside the `try`, line 157 in
the `except` handler).  Each outcome either raises (`Except.error`) or
returns an optional session. -/

/-- Errors leaving `_get_or_create_session`: a propagated service error,
or the `RuntimeError` of line 159 when no session was obtained. -/
inductive SessErr (E : Type) where
  | fromService : E → SessErr E
  | runtimeError : SessErr E

/-- `TutoBot._get_or_create_session`: try `get_session`, fall back to
`create_session` when it returned `None`; on any exception inside the
`try`, call `create_session` from the handler; raise `RuntimeError` if
the obtained session is still `None`. -/
def get_or_create_session {E S : Type} (lookup createInTry createInHandler : Except E (Option S)) :
    Except (SessErr E) S :=
  let tryBlock : Except E (Option S) :=
    match lookup with
    | .error e => .error e
    | .ok (some s) => .ok (some s)
    | .ok none => createInTry
  let afterTry : Except (SessErr E) (Option S) :=
    match tryBlock with
    | .ok s => .ok s
    | .error _ =>
      match createInHandler with
      | .ok s => .ok s
      | .error e => .error (.fromService e)
  match afterTry with
  | .error e => .error e
  | .ok none => .error .runtimeError
  | .ok (some s) => .ok s

/-- A service outcome that yields a session. -/
def yieldsSession {E S : Type} (r : Except E (Option S)) : Prop :=
  ∃ s, r = .ok (some s)

/-- Whether the `except` handler of line 154 runs: the `try` block raised,
i.e. the lookup raised, or the lookup returned `None` and the in-`try`
creation raised. -/
def handlerRuns {E S : Type} (lookup createInTry : Except E (Option S)) : Prop :=
  (∃ e, lookup = .error e) ∨ (lookup = .ok none ∧ ∃ e, createInTry = .error e)

/-- Whether some `create_session` call that actually ran yielded a session. -/
def creationYielded {E S : Type} (lookup createInTry createInHandler : Except E (Option S)) : Prop :=
  (lookup = .ok none ∧ yieldsSession createInTry) ∨
  (handlerRuns lookup createInTry ∧ yieldsSession createInHandler)

/-! ## Heap model of the evaluation loop (for the frame property)

Python dictionaries are mutable objects; `run_with_evaluation` mutates
`current_input` (line 275) which is a shallow copy (line 224) of the
caller's `input_data`.  To state that the caller's object is untouched we
re-render the loop with the two dictionary objects on an explicit heap:
references are indices into a list of dictionary values, `copy` allocates
a fresh cell, the feedback write of line 275 updates the `current_input`
cell, and line 249 reads the live `input_data` object. -/

/-- A heap of dictionary objects. -/
structure Heap where
  cells : List Dict

/-- Dereference (reads of a dangling reference never happen on the
embedded paths; they default to the empty dictionary). -/
def Heap.read (h : Heap) (r : Nat) : Dict := h.cells.getD r []

/-- In-place update of one dictionary object. -/
def Heap.write (h : Heap) (r : Nat) (d : Dict) : Heap := ⟨h.cells.set r d⟩

/-- `d.copy()`: allocate a fresh object holding the same entries. -/
def Heap.alloc (h : Heap) (d : Dict) : Heap × Nat := (⟨h.cells ++ [d]⟩, h.cells.length)

/-- The loop of `run_with_evaluation` in the heap model: `inputRef` is the
caller's `input_data` object, `curRef` the `current_input` copy.  Every
dictionary read goes through the heap at call time, and the
`previous_feedback` write of line 275 mutates `curRef` only. -/
def loopGoHeap (B : Behaviour) (generator_name output_key : String)
    (original_instruction : Val) (inputRef : Nat) :
    Nat → Nat → Nat → Heap → Except PyErr Dict × Heap
  | 0, iter, _curRef, h => (.ok (resultDict .null .null iter), h)
  | fuel + 1, iter, curRef, h =>
    let log := stepLog B generator_name output_key original_instruction
      (h.read inputRef) (iter + 1) (h.read curRef)
    match derivedVerdict log.evaluation with
    | some (status, _score, feedback) =>
      if isApproved status then
        (.ok (resultDict log.content log.evaluation (iter + 1)), h)
      else if 0 < fuel then
        loopGoHeap B generator_name output_key original_instruction inputRef
          fuel (iter + 1) curRef
          (h.write curRef (dset (h.read curRef) "previous_feedback" feedback))
      else
        (.ok (resultDictW log.content log.evaluation (iter + 1)), h)
    | none => (.error .attributeError, h)

/-- `run_with_evaluation` in the heap model: make the shallow copy of the
caller's dictionary (line 224), then run the loop on the copy.  (The
fall-through `content`/`evaluation` loop variables are dropped here: this
rendering serves the frame property only, and they are `None` whenever the
fall-through return is reachable.) -/
def run_with_evaluation_heap (B : Behaviour) (generator_name output_key : String)
    (original_instruction : Val) (h : Heap) (inputRef : Nat) (max_iterations : Nat) :
    Except PyErr Dict × Heap :=
  let alloc := h.alloc (h.read inputRef)
  loopGoHeap B generator_name output_key original_instruction inputRef
    max_iterations 0 alloc.2 alloc.1

/-! ## Python text primitives

A Python `str` is a sequence of code points, modelled as `List Char`. -/

/-- Python text. -/
abbrev Str := List Char

/-- Whether `pat` occurs in `s` at index `i`. -/
def occursAt (s pat : Str) (i : Nat) : Bool := pat.isPrefixOf (s.drop i)

/-- Scan indices `i, i+1, …` (at most `fuel` of them) for the first
occurrence of `pat`. -/
def findAux (s pat : Str) : Nat → Nat → Option Nat
  | _, 0 => none
  | i, fuel + 1 => if occursAt s pat i then some i else findAux s pat (i + 1) fuel

/-- First occurrence of `pat` in `s` at an index `≥ start`. -/
def pyFindN (s pat : Str) (start : Nat) : Option Nat :=
  findAux s pat start (s.length + 1 - start)

/-- Python `s.find(pat, start)`: index of the first occurrence, `-1` when
there is none.  A negative `start` counts from the end, as in Python. -/
def pyFind (s pat : Str) (start : Int) : Int :=
  let st : Nat := if start < 0 then ((s.length : Int) + start).toNat else start.toNat
  match pyFindN s pat st with
  | some i => (i : Int)
  | none => -1

/-- Scan indices `i, i-1, …, 0` for the last occurrence of `pat`. -/
def rfindAux (s pat : Str) : Nat → Option Nat
  | 0 => if occursAt s pat 0 then some 0 else none
  | i + 1 => if occursAt s pat (i + 1) then some (i + 1) else rfindAux s pat i

/-- Last occurrence of `pat` in `s`. -/
def pyRFindN (s pat : Str) : Option Nat := rfindAux s pat s.length

/-- Python `s.rfind(pat)`: index of the last occurrence, `-1` when there is
none. -/
def pyRFind (s pat : Str) : Int :=
  match pyRFindN s pat with
  | some i => (i : Int)
  | none => -1

/-- Resolve one Python slice bound against a length: negative indices count
from the end, and both ends clamp to `[0, len]`. -/
def sliceBound (len : Nat) (i : Int) : Nat :=
  if i < 0 then ((len : Int) + i).toNat else min i.toNat len

/-- Python `s[a:b]`. -/
def pySlice (s : Str) (a b : Int) : Str :=
  (s.take (sliceBound s.length b)).drop (sliceBound s.length a)

/-- Whitespace stripped by Python `str.strip()` (the ASCII part; the
orchestrator never feeds it other whitespace). -/
def isStripWs (c : Char) : Bool :=
  c = ' ' || c = '\t' || c = '\n' || c = '\r' || c = '\x0b' || c = '\x0c'

/-- Python `s.strip()`. -/
def pyStrip (s : Str) : Str :=
  ((s.dropWhile isStripWs).reverse.dropWhile isStripWs).reverse

/-! ## The structured-literal grammar (`json.loads` / `json.dumps`)

Modelled from the spec: the Task Executor serializes its input and the
Structured-Output Extractor parses "a structured literal
(mapping/sequence/scalar grammar)".  The `json` module is not part of the
repository; serializer and parser below follow Python's `json.dumps`
(default separators, `ensure_ascii=False`) and `json.loads` on the
structured values the orchestrator exchanges, with numbers restricted to
integers. -/

/-- The whitespace the structured-literal parser skips between tokens. -/
def isJsonWs (c : Char) : Bool := c = ' ' || c = '\t' || c = '\n' || c = '\r'

/-- Drop leading token whitespace. -/
def skipWs : Str → Str
  | [] => []
  | c :: r => if isJsonWs c then skipWs r else c :: r

/-- Lower-case hex digit for `d < 16`. -/
def hexDigit : Nat → Char
  | 0 => '0' | 1 => '1' | 2 => '2' | 3 => '3' | 4 => '4'
  | 5 => '5' | 6 => '6' | 7 => '7' | 8 => '8' | 9 => '9'
  | 10 => 'a' | 11 => 'b' | 12 => 'c' | 13 => 'd' | 14 => 'e'
  | _ => 'f' 

/-- Value of a hex digit character. -/
def hexVal (c : Char) : Option Nat :=
  if c ≤ '9' ∧ '0' ≤ c then some (c.toNat - '0'.toNat)
  else if 'a' ≤ c ∧ c ≤ 'f' then some (c.toNat - 'a'.toNat + 10)
  else if 'A' ≤ c ∧ c ≤ 'F' then some (c.toNat - 'A'.toNat + 10)
  else none

/-- Serialize one string character: the two mandatory escapes, the short
control escapes, `\u00xx` for other control characters, everything else
verbatim. -/
def escapeChar (c : Char) : Str :=
  if c = '"' then ['\\', '"']
  else if c = '\\' then ['\\', '\\']
  else if c = '\n' then ['\\', 'n']
  else if c = '\r' then ['\\', 'r']
  else if c = '\t' then ['\\', 't']
  else if c.toNat < 32 then
    ['\\', 'u', '0', '0', hexDigit (c.toNat / 16), hexDigit (c.toNat % 16)]
  else [c]

/-- Serialize a string body (without the surrounding quotes). -/
def escapeStr (s : List Char) : Str := (s.map escapeChar).flatten

/-- Decimal digit character for `d < 10`. -/
def digitChar : Nat → Char
  | 0 => '0' | 1 => '1' | 2 => '2' | 3 => '3' | 4 => '4'
  | 5 => '5' | 6 => '6' | 7 => '7' | 8 => '8' | _ => '9' 

/-- Decimal digits of `n`, most significant first. -/
def natToCharsAux : Nat → Nat → Str
  | 0, _ => []
  | fuel + 1, n =>
    if n < 10 then [digitChar n] else natToCharsAux fuel (n / 10) ++ [digitChar (n % 10)]

/-- Decimal rendering of a natural number. -/
def natToChars (n : Nat) : Str := natToCharsAux (n + 1) n

/-- Decimal rendering of an integer. -/
def intToChars (n : Int) : Str :=
  if n < 0 then '-' :: natToChars (-n).toNat else natToChars n.toNat

mutual

/-- `json.dumps` of a value (default separators). -/
def dumpsVal : Val → Str
  | .null => 'n' :: ['u', 'l', 'l']
  | .bool true => 't' :: ['r', 'u', 'e']
  | .bool false => 'f' :: ['a', 'l', 's', 'e']
  | .int n => intToChars n
  | .str s => '"' :: (escapeStr s.data ++ ['"'])
  | .arr xs => '[' :: (dumpsArr xs ++ [']'])
  | .obj d => '{' :: (dumpsObj d ++ ['}'])

/-- Comma-separated serialization of sequence items. -/
def dumpsArr : List Val → Str
  | [] => []
  | [v] => dumpsVal v
  | v :: w :: rest => dumpsVal v ++ ',' :: ' ' :: dumpsArr (w :: rest)

/-- Comma-separated serialization of mapping members. -/
def dumpsObj : List (String × Val) → Str
  | [] => []
  | [(k, v)] => '"' :: (escapeStr k.data ++ '"' :: ':' :: ' ' :: dumpsVal v)
  | (k, v) :: m :: rest =>
    ('"' :: (escapeStr k.data ++ '"' :: ':' :: ' ' :: dumpsVal v)) ++
      ',' :: ' ' :: dumpsObj (m :: rest)

end

mutual

/-- Node-and-member count of a value: an upper bound on the recursion
depth the parser needs for its serialization. -/
def vsize : Val → Nat
  | .null => 1
  | .bool _ => 1
  | .int _ => 1
  | .str _ => 1
  | .arr xs => 1 + asize xs
  | .obj d => 1 + msize d

/-- Summed size of sequence items. -/
def asize : List Val → Nat
  | [] => 0
  | v :: rest => 1 + vsize v + asize rest

/-- Summed size of mapping members. -/
def msize : List (String × Val) → Nat
  | [] => 0
  | (_, v) :: rest => 1 + vsize v + msize rest

end

/-- Decode one escape sequence after a backslash: the replacement
character and the remaining text (`\u` escapes are handled separately). -/
def escTable (e : Char) : Option Char :=
  if e = '"' then some '"'
  else if e = '\\' then some '\\'
  else if e = '/' then some '/'
  else if e = 'b' then some '\x08'
  else if e = 'f' then some '\x0c'
  else if e = 'n' then some '\n'
  else if e = 'r' then some '\r'
  else if e = 't' then some '\t'
  else none

/-- Parse a string body after the opening quote, handling escapes;
returns the decoded characters and the text after the closing quote. -/
def parseStringBody : Str → Option (List Char × Str)
  | [] => none
  | c :: rest =>
    if c = '"' then some ([], rest)
    else if c = '\\' then
      match rest with
      | [] => none
      | e :: r =>
        if e = 'u' then
          match r with
          | a :: b :: c' :: d :: r' =>
            match hexVal a, hexVal b, hexVal c', hexVal d with
            | some ha, some hb, some hc, some hd =>
              let n := ((ha * 16 + hb) * 16 + hc) * 16 + hd
              if n.isValidChar then
                (parseStringBody r').map (fun p => (Char.ofNat n :: p.1, p.2))
              else none
            | _, _, _, _ => none
          | _ => none
        else
          match escTable e with
          | some ec => (parseStringBody r).map (fun p => (ec :: p.1, p.2))
          | none => none
    else (parseStringBody rest).map (fun p => (c :: p.1, p.2))

/-- Split off a maximal run of decimal digits. -/
def takeDigits : Str → List Char × Str
  | [] => ([], [])
  | c :: r =>
    if c.isDigit then
      let p := takeDigits r
      (c :: p.1, p.2)
    else ([], c :: r)

/-- Value of a digit string, most significant first. -/
def digitsToNat (ds : List Char) : Nat :=
  ds.foldl (fun n d => n * 10 + (d.toNat - '0'.toNat)) 0

/-- Parse an integer literal (optional sign, digit run). -/
def parseIntTok : Str → Option (Int × Str)
  | [] => none
  | c :: r =>
    if c = '-' then
      match takeDigits r with
      | ([], _) => none
      | (ds, t) => some (-(digitsToNat ds : Int), t)
    else
      match takeDigits (c :: r) with
      | ([], _) => none
      | (ds, t) => some ((digitsToNat ds : Int), t)

mutual

/-- Fueled recursive-descent parser for one structured literal; returns the
value and the unconsumed text. -/
def parseVal : Nat → Str → Option (Val × Str)
  | 0, _ => none
  | fuel + 1, s =>
    match skipWs s with
    | [] => none
    | c :: r =>
      if c = '{' then
        match skipWs r with
        | [] => none
        | c' :: r' => if c' = '}' then some (.obj [], r') else parseMembers fuel (c' :: r') []
      else if c = '[' then
        match skipWs r with
        | [] => none
        | c' :: r' => if c' = ']' then some (.arr [], r') else parseItems fuel (c' :: r') []
      else if c = '"' then (parseStringBody r).map (fun p => (.str (String.mk p.1), p.2))
      else if c = 't' then
        match r with
        | 'r' :: 'u' :: 'e' :: t => some (.bool true, t)
        | _ => none
      else if c = 'f' then
        match r with
        | 'a' :: 'l' :: 's' :: 'e' :: t => some (.bool false, t)
        | _ => none
      else if c = 'n' then
        match r with
        | 'u' :: 'l' :: 'l' :: t => some (.null, t)
        | _ => none
      else (parseIntTok (c :: r)).map (fun p => (.int p.1, p.2))

/-- Parse the members of a non-empty mapping literal (after the `{`). -/
def parseMembers : Nat → Str → List (String × Val) → Option (Val × Str)
  | 0, _, _ => none
  | fuel + 1, s, acc =>
    match skipWs s with
    | [] => none
    | c :: r =>
      if c = '"' then
        match parseStringBody r with
        | none => none
        | some (kcs, r1) =>
          match skipWs r1 with
          | [] => none
          | c1 :: r2 =>
            if c1 = ':' then
              match parseVal fuel r2 with
              | none => none
              | some (v, r3) =>
                match skipWs r3 with
                | [] => none
                | c3 :: r4 =>
                  if c3 = ',' then parseMembers fuel r4 (acc ++ [(String.mk kcs, v)])
                  else if c3 = '}' then some (.obj (acc ++ [(String.mk kcs, v)]), r4)
                  else none
            else none
      else none

/-- Parse the items of a non-empty sequence literal (after the `[`). -/
def parseItems : Nat → Str → List Val → Option (Val × Str)
  | 0, _, _ => none
  | fuel + 1, s, acc =>
    match parseVal fuel s with
    | none => none
    | some (v, r) =>
      match skipWs r with
      | [] => none
      | c :: r2 =>
        if c = ',' then parseItems fuel r2 (acc ++ [v])
        else if c = ']' then some (.arr (acc ++ [v]), r2)
        else none

end

/-- `json.loads`: parse one structured literal and require only whitespace
after it. -/
def loads (s : Str) : Option Val :=
  match parseVal (s.length + 1) s with
  | some (v, rest) => if skipWs rest = [] then some v else none
  | none => none

/-- The triple-backtick fence. -/
def fenceStr : Str := ['`', '`', '`']

/-- `parse_json` (lines 31-38 of `agents.py`), literally:
`txt_start = text.find('```') + 3`, `txt_end = text.find('```', txt_start)`,
`text = text[txt_start:txt_end+1]`,
`json_str = text[text.find('{'):text.rfind('}')+1]`,
`json.loads(json_str.strip())`.  `None` is a raised `JSONDecodeError`. -/
def parse_json (text : Str) : Option Val :=
  let txt_start : Int := pyFind text fenceStr 0 + 3
  let txt_end : Int := pyFind text fenceStr txt_start
  let text2 := pySlice text txt_start (txt_end + 1)
  let json_str := pySlice text2 (pyFind text2 ['{'] 0) (pyRFind text2 ['}'] + 1)
  loads (pyStrip json_str)

/-- The extraction step of `TutoBot.run_agent` (lines 194-204 of
`agents.py`), as a function of the concatenated stream text: the parsed
structure on success, the `{error, raw_output}` sentinel with the verbatim
text on `JSONDecodeError`. -/
def run_agent (output_text : Str) : Val :=
  match parse_json output_text with
  | some result => result
  | none =>
    .obj [("error", .str "Failed to parse JSON"),
          ("raw_output", .str (String.mk output_text))]

/-- Find-first-`{`/last-`}` and parse, the brace-span step of the spec's
extraction algorithm (§4.2), over a given search space. -/
def braceSpanLoads (search : Str) : Option Val :=
  match pyFindN search ['{'] 0, pyRFindN search ['}'] with
  | some i, some j => loads (pyStrip (pySlice search (i : Int) ((j : Int) + 1)))
  | _, _ => none

/-- Modelled from the spec (§4.2), as the claim states it: locate the first
triple-backtick-delimited fenced block; **when no (complete) fenced block
exists the whole text is the search space**; within the search space take
the span from the first `{` to the last `}` inclusive and parse it. -/
def extract_spec (text : Str) : Option Val :=
  match pyFindN text fenceStr 0 with
  | none => braceSpanLoads text
  | some i =>
    match pyFindN text fenceStr (i + 3) with
    | none => braceSpanLoads text
    | some j => braceSpanLoads (pySlice text ((i : Int) + 3) (j : Int))

/-- The spec's extraction algorithm with the no-fence clause amended to
match the code: when the text has no complete fenced block (no fence at
all, or an opening fence with no closing fence) the search space is empty
and extraction fails; otherwise the search space is the first fenced
block's content. -/
def extract_spec_amended (text : Str) : Option Val :=
  match pyFindN text fenceStr 0 with
  | none => none
  | some i =>
    match pyFindN text fenceStr (i + 3) with
    | none => none
    | some j => braceSpanLoads (pySlice text ((i : Int) + 3) (j : Int))

/-- Serialize a record and wrap it in a triple-backtick fenced block, the
shape the spec's round-trip property feeds to the extractor. -/
def wrapFence (s : Str) : Str := fenceStr ++ '\n' :: (s ++ '\n' :: fenceStr)

/-! ## Analysis helpers for the evaluation loop -/

/-- The `current_input` value at the start of attempt `iter + i + 1`,
starting from `cur` at attempt `iter + 1`: each rejection merges the
attempt's feedback under `previous_feedback`. -/
def curSeq (B : Behaviour) (g o : String) (instr : Val) (inp : Dict)
    (iter : Nat) (cur : Dict) : Nat → Dict
  | 0 => cur
  | i + 1 =>
    dset (curSeq B g o instr inp iter cur i) "previous_feedback"
      (feedbackLog (stepLog B g o instr inp (iter + i + 1)
        (curSeq B g o instr inp iter cur i)))

/-- An evaluator behaviour whose unwrapped verdict is always a mapping
whose `status` is not `"APPROVED"`. -/
def rejectsAlways (B : Behaviour) : Prop :=
  ∀ k d, ∃ ev,
    dgetD (B.evalOut k d) "evaluation_result" (.obj (B.evalOut k d)) = .obj ev ∧
    isApproved (dgetD ev "status" (.str "REJECTED")) = false

/-- An evaluator behaviour whose unwrapped verdict is always a mapping
with no `status` field at all. -/
def statuslessAlways (B : Behaviour) : Prop :=
  ∀ k d, ∃ ev,
    dgetD (B.evalOut k d) "evaluation_result" (.obj (B.evalOut k d)) = .obj ev ∧
    dget ev "status" = none

/-- The concrete scenario of the spec (§8): a generator always producing
`{"x":1}` with an evaluator always returning
`{"status":"REJECTED","quality_score":10,"feedback":"fix x"}`. -/
def scenarioRejectB : Behaviour :=
  ⟨fun _ _ => [("x", .int 1)],
   fun _ _ => [("status", .str "REJECTED"), ("quality_score", .int 10),
               ("feedback", .str "fix x")]⟩

/-- An evaluator answering `{"evaluation_result": 42}`: a malformed verdict
wrapper whose unwrapped value is not a mapping. -/
def scenarioBadVerdictB : Behaviour :=
  ⟨fun _ _ => [("x", .int 1)], fun _ _ => [("evaluation_result", .int 42)]⟩

/-! ## Concrete scenario data for the pipeline claims -/

def scenarioUnits : List Val := [.obj [("week", .int 1)], .obj [("week", .int 2)], .obj [("week", .int 3)]]

def scenarioPlannerB : Behaviour :=
  ⟨fun _ _ => [("curriculum", .obj [("curriculum", .arr scenarioUnits)])],
   fun _ _ => [("status", .str "APPROVED")]⟩

def scenarioLessonB : Behaviour :=
  ⟨fun _ _ => [("lessons", .obj [("lessons", .arr [.str "L1"])])],
   fun _ _ => [("status", .str "APPROVED")]⟩

def scenarioTin : Dict :=
  [("board", .str "SSC"), ("grade", .int 5), ("subject", .str "Mathematics"),
   ("duration_weeks", .int 4)]

/-- Safe continuations for a serialized value: end of input or a closing
delimiter / separator, never a digit. -/
def sepRest (rest : Str) : Prop :=
  rest = [] ∨ ∃ c r, rest = c :: r ∧ (c = ',' ∨ c = '}' ∨ c = ']')


/-! ## Lemmas and claim theorems -/


lemma dget_dset_self (d : Dict) (k : String) (v : Val) : dget (dset d k v) k = some v := by
  induction d with
  | nil => simp [dset, dget]
  | cons p t ih =>
    obtain ⟨k', w⟩ := p
    by_cases h : k' = k
    · simp [dset, dget, h]
    · simp [dset, dget, h, ih]

section LoopLemmas

variable (B : Behaviour) (g o : String) (instr : Val) (inp : Dict)

lemma loopGo_zero (iter : Nat) (cur : Dict) (c e : Val) :
    loopGo B g o instr inp 0 iter cur c e = (.ok (resultDict c e iter), []) := rfl

lemma loopGo_succ (fuel iter : Nat) (cur : Dict) (c e : Val) :
    loopGo B g o instr inp (fuel + 1) iter cur c e =
      (match derivedVerdict (stepLog B g o instr inp (iter + 1) cur).evaluation with
       | some (status, _score, feedback) =>
         if isApproved status then
           (.ok (resultDict (stepLog B g o instr inp (iter + 1) cur).content
                  (stepLog B g o instr inp (iter + 1) cur).evaluation (iter + 1)),
            [stepLog B g o instr inp (iter + 1) cur])
         else if 0 < fuel then
           ((loopGo B g o instr inp fuel (iter + 1)
               (dset cur "previous_feedback" feedback)
               (stepLog B g o instr inp (iter + 1) cur).content
               (stepLog B g o instr inp (iter + 1) cur).evaluation).1,
            stepLog B g o instr inp (iter + 1) cur ::
              (loopGo B g o instr inp fuel (iter + 1)
                (dset cur "previous_feedback" feedback)
                (stepLog B g o instr inp (iter + 1) cur).content
                (stepLog B g o instr inp (iter + 1) cur).evaluation).2)
         else
           (.ok (resultDictW (stepLog B g o instr inp (iter + 1) cur).content
                  (stepLog B g o instr inp (iter + 1) cur).evaluation (iter + 1)),
            [stepLog B g o instr inp (iter + 1) cur])
       | none => (.error .attributeError, [stepLog B g o instr inp (iter + 1) cur])) := rfl

lemma loopGo_length_le : ∀ (fuel iter : Nat) (cur : Dict) (c e : Val),
    (loopGo B g o instr inp fuel iter cur c e).2.length ≤ fuel := by
  intro fuel
  induction fuel with
  | zero => intro iter cur c e; simp [loopGo_zero]
  | succ f ih =>
    intro iter cur c e
    rw [loopGo_succ]
    rcases hdv : derivedVerdict ((stepLog B g o instr inp (iter + 1) cur).evaluation) with _ | ⟨st, sc, fb⟩
    · simp
    · dsimp only
      by_cases hap : isApproved st
      · simp [hap]
      · by_cases hf : 0 < f
        · have := ih (iter + 1) (dset cur "previous_feedback" fb)
            ((stepLog B g o instr inp (iter + 1) cur).content)
            ((stepLog B g o instr inp (iter + 1) cur).evaluation)
          simp only [hap, Bool.false_eq_true, if_false, if_pos hf, List.length_cons]
          omega
        · simp [hap, hf]

lemma loopGo_ne_nil (fuel iter : Nat) (cur : Dict) (c e : Val) (hf : 0 < fuel) :
    (loopGo B g o instr inp fuel iter cur c e).2 ≠ [] := by
  obtain ⟨f, rfl⟩ := Nat.exists_eq_succ_of_ne_zero (Nat.pos_iff_ne_zero.mp hf)
  rw [loopGo_succ]
  rcases hdv : derivedVerdict ((stepLog B g o instr inp (iter + 1) cur).evaluation) with _ | ⟨st, sc, fb⟩
  · simp
  · dsimp only
    by_cases hap : isApproved st
    · simp [hap]
    · by_cases hff : 0 < f
      · simp [hap, hff]
      · simp [hap, hff]

lemma curSeq_shift (iter : Nat) (cur : Dict) : ∀ i,
    curSeq B g o instr inp iter cur (i + 1) =
      curSeq B g o instr inp (iter + 1)
        (dset cur "previous_feedback" (feedbackLog (stepLog B g o instr inp (iter + 1) cur))) i := by
  intro i
  induction i with
  | zero => simp [curSeq]
  | succ j ih =>
    conv_lhs => rw [curSeq]
    conv_rhs => rw [curSeq]
    rw [ih]
    have harith : iter + (j + 1) + 1 = iter + 1 + j + 1 := by omega
    rw [harith]

end LoopLemmas

section TraceLemmas

variable (B : Behaviour) (g o : String) (instr : Val) (inp : Dict)

lemma loopGo_succ_none (f iter : Nat) (cur : Dict) (c e : Val)
    (hdv : derivedVerdict (stepLog B g o instr inp (iter + 1) cur).evaluation = none) :
    loopGo B g o instr inp (f + 1) iter cur c e =
      (.error .attributeError, [stepLog B g o instr inp (iter + 1) cur]) := by
  rw [loopGo_succ, hdv]

lemma loopGo_succ_approved (f iter : Nat) (cur : Dict) (c e st sc fb : Val)
    (hdv : derivedVerdict (stepLog B g o instr inp (iter + 1) cur).evaluation = some (st, sc, fb))
    (hap : isApproved st = true) :
    loopGo B g o instr inp (f + 1) iter cur c e =
      (.ok (resultDict (stepLog B g o instr inp (iter + 1) cur).content
             (stepLog B g o instr inp (iter + 1) cur).evaluation (iter + 1)),
       [stepLog B g o instr inp (iter + 1) cur]) := by
  rw [loopGo_succ, hdv]
  simp [hap]

lemma loopGo_succ_cont (f iter : Nat) (cur : Dict) (c e st sc fb : Val)
    (hdv : derivedVerdict (stepLog B g o instr inp (iter + 1) cur).evaluation = some (st, sc, fb))
    (hap : isApproved st = false) (hf : 0 < f) :
    loopGo B g o instr inp (f + 1) iter cur c e =
      ((loopGo B g o instr inp f (iter + 1) (dset cur "previous_feedback" fb)
          (stepLog B g o instr inp (iter + 1) cur).content
          (stepLog B g o instr inp (iter + 1) cur).evaluation).1,
       stepLog B g o instr inp (iter + 1) cur ::
         (loopGo B g o instr inp f (iter + 1) (dset cur "previous_feedback" fb)
           (stepLog B g o instr inp (iter + 1) cur).content
           (stepLog B g o instr inp (iter + 1) cur).evaluation).2) := by
  rw [loopGo_succ, hdv]
  simp [hap, hf]

lemma loopGo_succ_last (f iter : Nat) (cur : Dict) (c e st sc fb : Val)
    (hdv : derivedVerdict (stepLog B g o instr inp (iter + 1) cur).evaluation = some (st, sc, fb))
    (hap : isApproved st = false) (hf : f = 0) :
    loopGo B g o instr inp (f + 1) iter cur c e =
      (.ok (resultDictW (stepLog B g o instr inp (iter + 1) cur).content
             (stepLog B g o instr inp (iter + 1) cur).evaluation (iter + 1)),
       [stepLog B g o instr inp (iter + 1) cur]) := by
  subst hf
  rw [loopGo_succ, hdv]
  simp [hap]

end TraceLemmas

section TraceLemmas2

variable (B : Behaviour) (g o : String) (instr : Val) (inp : Dict)

lemma loopGo_get? : ∀ (fuel iter : Nat) (cur : Dict) (c e : Val) (i : Nat),
    i < (loopGo B g o instr inp fuel iter cur c e).2.length →
    (loopGo B g o instr inp fuel iter cur c e).2.get? i =
      some (stepLog B g o instr inp (iter + i + 1) (curSeq B g o instr inp iter cur i)) := by
  intro fuel
  induction fuel with
  | zero => intro iter cur c e i h; simp [loopGo_zero] at h
  | succ f ih =>
    intro iter cur c e i h
    rcases hdv : derivedVerdict ((stepLog B g o instr inp (iter + 1) cur).evaluation) with _ | ⟨st, sc, fb⟩
    · rw [loopGo_succ_none B g o instr inp f iter cur c e hdv] at h ⊢
      simp only [List.length_cons, List.length_nil] at h
      interval_cases i
      · simp [curSeq]
    · rcases hb : isApproved st with _ | _
      · cases f with
        | zero =>
          rw [loopGo_succ_last B g o instr inp 0 iter cur c e st sc fb hdv hb rfl] at h ⊢
          simp only [List.length_cons, List.length_nil] at h
          interval_cases i
          · simp [curSeq]
        | succ f' =>
          rw [loopGo_succ_cont B g o instr inp (f' + 1) iter cur c e st sc fb hdv hb (Nat.succ_pos f')] at h ⊢
          cases i with
          | zero => simp [curSeq]
          | succ j =>
            simp only [List.length_cons, Nat.succ_lt_succ_iff] at h
            simp only [List.get?_cons_succ]
            have hfb : feedbackLog (stepLog B g o instr inp (iter + 1) cur) = fb := by
              simp [feedbackLog, hdv]
            rw [ih (iter + 1) (dset cur "previous_feedback" fb)
              ((stepLog B g o instr inp (iter + 1) cur).content)
              ((stepLog B g o instr inp (iter + 1) cur).evaluation) j h]
            rw [curSeq_shift, hfb]
            have harith : iter + 1 + j + 1 = iter + (j + 1) + 1 := by omega
            rw [harith]
      · rw [loopGo_succ_approved B g o instr inp f iter cur c e st sc fb hdv hb] at h ⊢
        simp only [List.length_cons, List.length_nil] at h
        interval_cases i
        · simp [curSeq]

end TraceLemmas2

section ResultLemmas

variable (B : Behaviour) (g o : String) (instr : Val) (inp : Dict)

lemma loopGo_mid_not_approved : ∀ (fuel iter : Nat) (cur : Dict) (c e : Val) (i : Nat) (l : IterLog),
    (loopGo B g o instr inp fuel iter cur c e).2.get? i = some l →
    i + 1 < (loopGo B g o instr inp fuel iter cur c e).2.length →
    approvedLog l = false := by
  intro fuel
  induction fuel with
  | zero => intro iter cur c e i l hl h; simp [loopGo_zero] at h
  | succ f ih =>
    intro iter cur c e i l hl h
    rcases hdv : derivedVerdict ((stepLog B g o instr inp (iter + 1) cur).evaluation) with _ | ⟨st, sc, fb⟩
    · rw [loopGo_succ_none B g o instr inp f iter cur c e hdv] at h
      simp at h
    · rcases hb : isApproved st with _ | _
      · cases f with
        | zero =>
          rw [loopGo_succ_last B g o instr inp 0 iter cur c e st sc fb hdv hb rfl] at h
          simp at h
        | succ f' =>
          rw [loopGo_succ_cont B g o instr inp (f' + 1) iter cur c e st sc fb hdv hb (Nat.succ_pos f')] at hl h
          cases i with
          | zero =>
            simp only [List.get?_cons_zero, Option.some_inj] at hl
            subst hl
            simp [approvedLog, hdv, hb]
          | succ j =>
            simp only [List.get?_cons_succ] at hl
            simp only [List.length_cons, Nat.succ_lt_succ_iff] at h
            exact ih (iter + 1) (dset cur "previous_feedback" fb)
              ((stepLog B g o instr inp (iter + 1) cur).content)
              ((stepLog B g o instr inp (iter + 1) cur).evaluation) j l hl h
      · rw [loopGo_succ_approved B g o instr inp f iter cur c e st sc fb hdv hb] at h
        simp at h

lemma loopGo_continues : ∀ (fuel iter : Nat) (cur : Dict) (c e : Val) (i : Nat) (l : IterLog)
    (st sc fb : Val),
    (loopGo B g o instr inp fuel iter cur c e).2.get? i = some l →
    derivedVerdict l.evaluation = some (st, sc, fb) →
    isApproved st = false →
    i + 1 < fuel →
    i + 1 < (loopGo B g o instr inp fuel iter cur c e).2.length := by
  intro fuel
  induction fuel with
  | zero => intro iter cur c e i l st sc fb hl hdvl hb hif; omega
  | succ f ih =>
    intro iter cur c e i l st sc fb hl hdvl hb hif
    rcases hdv : derivedVerdict ((stepLog B g o instr inp (iter + 1) cur).evaluation) with _ | ⟨st', sc', fb'⟩
    · rw [loopGo_succ_none B g o instr inp f iter cur c e hdv] at hl ⊢
      cases i with
      | zero =>
        simp only [List.get?_cons_zero, Option.some_inj] at hl
        subst hl
        rw [hdvl] at hdv
        exact absurd hdv (by simp)
      | succ j => simp at hl
    · rcases hb' : isApproved st' with _ | _
      · cases f with
        | zero => omega
        | succ f' =>
          rw [loopGo_succ_cont B g o instr inp (f' + 1) iter cur c e st' sc' fb' hdv hb' (Nat.succ_pos f')] at hl ⊢
          cases i with
          | zero =>
            simp only [List.length_cons]
            have := loopGo_ne_nil B g o instr inp (f' + 1) (iter + 1)
              (dset cur "previous_feedback" fb')
              ((stepLog B g o instr inp (iter + 1) cur).content)
              ((stepLog B g o instr inp (iter + 1) cur).evaluation) (Nat.succ_pos f')
            have hpos := List.length_pos.mpr this
            omega
          | succ j =>
            simp only [List.get?_cons_succ] at hl
            simp only [List.length_cons, Nat.succ_lt_succ_iff]
            exact ih (iter + 1) (dset cur "previous_feedback" fb')
              ((stepLog B g o instr inp (iter + 1) cur).content)
              ((stepLog B g o instr inp (iter + 1) cur).evaluation) j l st sc fb hl hdvl hb
              (by omega)
      · cases i with
        | zero =>
          rw [loopGo_succ_approved B g o instr inp f iter cur c e st' sc' fb' hdv hb'] at hl
          simp only [List.get?_cons_zero, Option.some_inj] at hl
          subst hl
          rw [hdvl] at hdv
          simp only [Option.some_inj, Prod.mk.injEq] at hdv
          obtain ⟨h1, -, -⟩ := hdv
          rw [h1, hb'] at hb
          simp at hb
        | succ j =>
          rw [loopGo_succ_approved B g o instr inp f iter cur c e st' sc' fb' hdv hb'] at hl
          simp at hl

end ResultLemmas

lemma getLast?_cons_of_ne_nil {α : Type} (a : α) (l : List α) (h : l ≠ []) :
    (a :: l).getLast? = l.getLast? := by
  cases l with
  | nil => exact absurd rfl h
  | cons x xs => rw [List.getLast?_cons_cons]

section ResultLemmas2

variable (B : Behaviour) (g o : String) (instr : Val) (inp : Dict)

lemma loopGo_last_approved : ∀ (fuel iter : Nat) (cur : Dict) (c e : Val) (l : IterLog),
    (loopGo B g o instr inp fuel iter cur c e).2.getLast? = some l →
    approvedLog l = true →
    (loopGo B g o instr inp fuel iter cur c e).1 =
      .ok (resultDict l.content l.evaluation
        (iter + (loopGo B g o instr inp fuel iter cur c e).2.length)) := by
  intro fuel
  induction fuel with
  | zero => intro iter cur c e l hl hap; simp [loopGo_zero] at hl
  | succ f ih =>
    intro iter cur c e l hl hap
    rcases hdv : derivedVerdict ((stepLog B g o instr inp (iter + 1) cur).evaluation) with _ | ⟨st, sc, fb⟩
    · rw [loopGo_succ_none B g o instr inp f iter cur c e hdv] at hl
      simp only [List.getLast?_singleton, Option.some_inj] at hl
      subst hl
      simp [approvedLog, hdv] at hap
    · rcases hb : isApproved st with _ | _
      · cases f with
        | zero =>
          rw [loopGo_succ_last B g o instr inp 0 iter cur c e st sc fb hdv hb rfl] at hl
          simp only [List.getLast?_singleton, Option.some_inj] at hl
          subst hl
          simp [approvedLog, hdv, hb] at hap
        | succ f' =>
          rw [loopGo_succ_cont B g o instr inp (f' + 1) iter cur c e st sc fb hdv hb (Nat.succ_pos f')] at hl ⊢
          have hne := loopGo_ne_nil B g o instr inp (f' + 1) (iter + 1)
            (dset cur "previous_feedback" fb)
            ((stepLog B g o instr inp (iter + 1) cur).content)
            ((stepLog B g o instr inp (iter + 1) cur).evaluation) (Nat.succ_pos f')
          dsimp only at hl ⊢
          rw [getLast?_cons_of_ne_nil _ _ hne] at hl
          have hres := ih (iter + 1) (dset cur "previous_feedback" fb)
            ((stepLog B g o instr inp (iter + 1) cur).content)
            ((stepLog B g o instr inp (iter + 1) cur).evaluation) l hl hap
          rw [hres]
          simp only [List.length_cons]
          have harith : iter + 1 +
              (loopGo B g o instr inp (f' + 1) (iter + 1) (dset cur "previous_feedback" fb)
                ((stepLog B g o instr inp (iter + 1) cur).content)
                ((stepLog B g o instr inp (iter + 1) cur).evaluation)).2.length =
              iter + ((loopGo B g o instr inp (f' + 1) (iter + 1) (dset cur "previous_feedback" fb)
                ((stepLog B g o instr inp (iter + 1) cur).content)
                ((stepLog B g o instr inp (iter + 1) cur).evaluation)).2.length + 1) := by omega
          rw [harith]
      · rw [loopGo_succ_approved B g o instr inp f iter cur c e st sc fb hdv hb] at hl ⊢
        simp only [List.getLast?_singleton, Option.some_inj] at hl
        subst hl
        simp

lemma rejects_step (H : rejectsAlways B) (k : Nat) (cur : Dict) :
    ∃ st sc fb, derivedVerdict (stepLog B g o instr inp k cur).evaluation = some (st, sc, fb) ∧
      isApproved st = false := by
  obtain ⟨ev, hev, hst⟩ := H k (mkEvalInput g instr inp (B.genOut k cur))
  refine ⟨dgetD ev "status" (.str "REJECTED"), dgetD ev "quality_score" (.int 0),
    dgetD ev "feedback" (.str "No feedback provided"), ?_, hst⟩
  show derivedVerdict
    (dgetD (B.evalOut k (mkEvalInput g instr inp (B.genOut k cur))) "evaluation_result"
      (.obj (B.evalOut k (mkEvalInput g instr inp (B.genOut k cur))))) = _
  rw [hev]
  rfl

lemma loopGo_exhaust (H : rejectsAlways B) : ∀ (fuel iter : Nat) (cur : Dict) (c e : Val),
    0 < fuel →
    (loopGo B g o instr inp fuel iter cur c e).2.length = fuel ∧
    ∀ l, (loopGo B g o instr inp fuel iter cur c e).2.getLast? = some l →
      (loopGo B g o instr inp fuel iter cur c e).1 =
        .ok (resultDictW l.content l.evaluation (iter + fuel)) := by
  intro fuel
  induction fuel with
  | zero => intro iter cur c e h; omega
  | succ f ih =>
    intro iter cur c e _
    obtain ⟨st, sc, fb, hdv, hb⟩ := rejects_step B g o instr inp H (iter + 1) cur
    cases f with
    | zero =>
      rw [loopGo_succ_last B g o instr inp 0 iter cur c e st sc fb hdv hb rfl]
      refine ⟨rfl, ?_⟩
      intro l hl
      simp only [List.getLast?_singleton, Option.some_inj] at hl
      subst hl
      rfl
    | succ f' =>
      rw [loopGo_succ_cont B g o instr inp (f' + 1) iter cur c e st sc fb hdv hb (Nat.succ_pos f')]
      obtain ⟨ihlen, ihres⟩ := ih (iter + 1) (dset cur "previous_feedback" fb)
        ((stepLog B g o instr inp (iter + 1) cur).content)
        ((stepLog B g o instr inp (iter + 1) cur).evaluation) (Nat.succ_pos f')
      constructor
      · simp only [List.length_cons, ihlen]
      · intro l hl
        have hne := loopGo_ne_nil B g o instr inp (f' + 1) (iter + 1)
          (dset cur "previous_feedback" fb)
          ((stepLog B g o instr inp (iter + 1) cur).content)
          ((stepLog B g o instr inp (iter + 1) cur).evaluation) (Nat.succ_pos f')
        dsimp only at hl ⊢
        rw [getLast?_cons_of_ne_nil _ _ hne] at hl
        have hres := ihres l hl
        rw [hres]
        have harith : iter + 1 + (f' + 1) = iter + (f' + 1 + 1) := by omega
        rw [harith]

end ResultLemmas2

section StepFieldLemmas

lemma stepLog_input (B : Behaviour) (g o : String) (instr : Val) (inp : Dict) (k : Nat) (cur : Dict) :
    (stepLog B g o instr inp k cur).input = cur := rfl

lemma statusless_step (B : Behaviour) (g o : String) (instr : Val) (inp : Dict)
    (H : statuslessAlways B) (k : Nat) (cur : Dict) :
    approvedLog (stepLog B g o instr inp k cur) = false := by
  obtain ⟨ev, hev, hst⟩ := H k (mkEvalInput g instr inp (B.genOut k cur))
  have hev' : (stepLog B g o instr inp k cur).evaluation = .obj ev := hev
  simp [approvedLog, derivedVerdict, hev', dgetD, hst, isApproved]

end StepFieldLemmas

/-- C1: for every `maxIterations ≥ 1` and every generator/evaluator
behaviour, `run_with_evaluation` performs at most `maxIterations`
generate/evaluate round trips; every non-final round trip's verdict is not
APPROVED (so after an APPROVED verdict the generator is never invoked
again); and when the final round trip's verdict is APPROVED the loop
returns that round trip's content, evaluation and iteration count. -/
theorem run_with_evaluation_bounded_and_approval_terminal
    (B : Behaviour) (g o : String) (instr : Val) (inp : Dict) (m : Nat) (hm : 1 ≤ m) :
    (run_with_evaluation B g o instr inp m).2.length ≤ m ∧
    (∀ i l, (run_with_evaluation B g o instr inp m).2.get? i = some l →
       i + 1 < (run_with_evaluation B g o instr inp m).2.length →
       approvedLog l = false) ∧
    (∀ l, (run_with_evaluation B g o instr inp m).2.getLast? = some l →
       approvedLog l = true →
       (run_with_evaluation B g o instr inp m).1 =
         .ok (resultDict l.content l.evaluation
           (run_with_evaluation B g o instr inp m).2.length)) := by
  refine ⟨loopGo_length_le B g o instr inp m 0 (dcopy inp) .null .null, ?_, ?_⟩
  · intro i l h1 h2
    exact loopGo_mid_not_approved B g o instr inp m 0 (dcopy inp) .null .null i l h1 h2
  · intro l h1 h2
    have h := loopGo_last_approved B g o instr inp m 0 (dcopy inp) .null .null l h1 h2
    simpa using h

theorem run_with_evaluation_bounded_and_approval_terminal_witness :
    1 ≤ 2 ∧
    (run_with_evaluation scenarioRejectB "planner" "curriculum" (.str "instr") [] 2).2.length ≤ 2 :=
  ⟨by omega,
   (run_with_evaluation_bounded_and_approval_terminal scenarioRejectB "planner" "curriculum"
     (.str "instr") [] 2 (by omega)).1⟩

/-- C2 (amended): when every verdict is a mapping whose status is not
APPROVED and the budget `maxIterations ≥ 1` is exhausted, the loop returns
normally with exactly `maxIterations` round trips and the result
`{content, evaluation, iterations, warning}` whose `content`/`evaluation`
are the last round trip's, `iterations = maxIterations`, and whose
`warning` value is the string `"Max iterations reached without approval"`
(capital `M`, as written on line 280). -/
theorem run_with_evaluation_exhaustion_result
    (B : Behaviour) (g o : String) (instr : Val) (inp : Dict) (m : Nat)
    (hm : 1 ≤ m) (H : rejectsAlways B) :
    (run_with_evaluation B g o instr inp m).2.length = m ∧
    ∀ l, (run_with_evaluation B g o instr inp m).2.getLast? = some l →
      (run_with_evaluation B g o instr inp m).1 = .ok (resultDictW l.content l.evaluation m) ∧
      dget (resultDictW l.content l.evaluation m) "warning" =
        some (.str "Max iterations reached without approval") ∧
      dget (resultDictW l.content l.evaluation m) "iterations" = some (.int m) ∧
      dget (resultDictW l.content l.evaluation m) "content" = some l.content := by
  obtain ⟨hlen, hres⟩ := loopGo_exhaust B g o instr inp H m 0 (dcopy inp) .null .null (by omega)
  refine ⟨hlen, ?_⟩
  intro l hl
  refine ⟨by simpa using hres l hl, ?_, ?_, ?_⟩
  · simp [resultDictW, dget]
  · simp [resultDictW, dget]
  · simp [resultDictW, dget]

theorem run_with_evaluation_exhaustion_result_witness :
    (run_with_evaluation scenarioRejectB "planner" "curriculum" (Val.str "instr") [] 2).2.length = 2 ∧
    (run_with_evaluation scenarioRejectB "planner" "curriculum" (Val.str "instr") [] 2).1 =
      .ok (resultDictW (.obj [("x", .int 1)])
        (.obj [("status", .str "REJECTED"), ("quality_score", .int 10), ("feedback", .str "fix x")])
        2) := by
  have h := run_with_evaluation_exhaustion_result scenarioRejectB "planner" "curriculum"
    (.str "instr") [] 2 (by omega) (fun _ _ => ⟨_, rfl, rfl⟩)
  refine ⟨h.1, ?_⟩
  exact (h.2 ⟨[("previous_feedback", .str "fix x")], [("x", .int 1)], .obj [("x", .int 1)],
    .obj [("status", .str "REJECTED"), ("quality_score", .int 10), ("feedback", .str "fix x")]⟩
    rfl).1

/-- C2 counterexample: in the claim's own scenario the result's `warning`
value is `"Max iterations reached without approval"`, which is not the
claimed string `"max iterations reached without approval"` (the code
capitalizes the first word, line 280 of `agents.py`). -/
theorem run_with_evaluation_warning_string_counterexample :
    (run_with_evaluation scenarioRejectB "planner" "curriculum" (Val.str "instr") [] 2).1 =
      .ok (resultDictW (.obj [("x", .int 1)])
        (.obj [("status", .str "REJECTED"), ("quality_score", .int 10), ("feedback", .str "fix x")])
        2) ∧
    dget (resultDictW (.obj [("x", .int 1)])
        (.obj [("status", .str "REJECTED"), ("quality_score", .int 10), ("feedback", .str "fix x")])
        2) "warning" = some (.str "Max iterations reached without approval") ∧
    some (Val.str "Max iterations reached without approval") ≠
      some (Val.str "max iterations reached without approval") := by
  refine ⟨rfl, rfl, ?_⟩
  intro h
  have h1 : Val.str "Max iterations reached without approval" =
      Val.str "max iterations reached without approval" := Option.some_inj.mp h
  have h2 : "Max iterations reached without approval" =
      "max iterations reached without approval" := by injection h1
  exact absurd h2 (by decide)

/-- C3: when round trip `i+1`'s verdict is a non-APPROVED mapping with
feedback `fb` and `i + 1 < maxIterations`, round trip `i+2` happens and
its generator input has `previous_feedback = fb` (overwriting any earlier
value, since the merge is a key update); conversely when the first
attempt's verdict is APPROVED the loop returns `iterations = 1` after a
single round trip whose generator input is exactly the (copied) caller
input, so no `previous_feedback` key is ever injected. -/
theorem run_with_evaluation_feedback_propagation
    (B : Behaviour) (g o : String) (instr : Val) (inp : Dict) (m : Nat) :
    (∀ i l st sc fb, (run_with_evaluation B g o instr inp m).2.get? i = some l →
       derivedVerdict l.evaluation = some (st, sc, fb) →
       isApproved st = false →
       i + 1 < m →
       ∃ l', (run_with_evaluation B g o instr inp m).2.get? (i + 1) = some l' ∧
         dget l'.input "previous_feedback" = some fb) ∧
    (∀ st sc fb, derivedVerdict (stepLog B g o instr inp 1 inp).evaluation = some (st, sc, fb) →
       isApproved st = true → 1 ≤ m →
       (run_with_evaluation B g o instr inp m).1 =
         .ok (resultDict (stepLog B g o instr inp 1 inp).content
           (stepLog B g o instr inp 1 inp).evaluation 1) ∧
       (run_with_evaluation B g o instr inp m).2 = [stepLog B g o instr inp 1 inp]) := by
  constructor
  · intro i l st sc fb hl hdv hb hi
    have h2 : i + 1 < (run_with_evaluation B g o instr inp m).2.length :=
      loopGo_continues B g o instr inp m 0 (dcopy inp) .null .null i l st sc fb hl hdv hb hi
    have hget1 := loopGo_get? B g o instr inp m 0 (dcopy inp) .null .null (i + 1) h2
    refine ⟨_, hget1, ?_⟩
    have hget0 := loopGo_get? B g o instr inp m 0 (dcopy inp) .null .null i
      (show i < (run_with_evaluation B g o instr inp m).2.length by omega)
    have hl' : l = stepLog B g o instr inp (0 + i + 1) (curSeq B g o instr inp 0 (dcopy inp) i) := by
      have := hget0.symm.trans hl
      exact (Option.some_inj.mp this).symm
    have hfb : feedbackLog l = fb := by simp [feedbackLog, hdv]
    show dget (stepLog B g o instr inp (0 + (i + 1) + 1)
      (curSeq B g o instr inp 0 (dcopy inp) (i + 1))).input "previous_feedback" = some fb
    rw [stepLog_input]
    show dget (dset (curSeq B g o instr inp 0 (dcopy inp) i) "previous_feedback"
      (feedbackLog (stepLog B g o instr inp (0 + i + 1) (curSeq B g o instr inp 0 (dcopy inp) i))))
      "previous_feedback" = some fb
    rw [← hl', hfb]
    exact dget_dset_self _ _ _
  · intro st sc fb hdv hb hm
    obtain ⟨f, rfl⟩ := Nat.exists_eq_add_of_le hm
    have h := loopGo_succ_approved B g o instr inp f 0 (dcopy inp) Val.null Val.null st sc fb hdv hb
    constructor
    · show (loopGo B g o instr inp (1 + f) 0 (dcopy inp) Val.null Val.null).1 = _
      rw [Nat.add_comm 1 f, h]
      rfl
    · show (loopGo B g o instr inp (1 + f) 0 (dcopy inp) Val.null Val.null).2 = _
      rw [Nat.add_comm 1 f, h]
      rfl

theorem run_with_evaluation_feedback_propagation_witness :
    ∃ l', (run_with_evaluation scenarioRejectB "planner" "curriculum" (Val.str "instr") [] 2).2.get? 1 =
        some l' ∧ dget l'.input "previous_feedback" = some (Val.str "fix x") :=
  (run_with_evaluation_feedback_propagation scenarioRejectB "planner" "curriculum"
      (Val.str "instr") [] 2).1 0
    ⟨[], [("x", .int 1)], .obj [("x", .int 1)],
     .obj [("status", .str "REJECTED"), ("quality_score", .int 10), ("feedback", .str "fix x")]⟩
    (.str "REJECTED") (.int 10) (.str "fix x") rfl rfl rfl (by omega)

/-- C7 (amended): the loop controller's verdict unwrapping is fail-closed
for mapping-shaped verdicts — a missing `status` defaults to `REJECTED`, a
missing `quality_score` to `0`, a missing `feedback` to the placeholder —
and a verdict mapping without `status` never makes any round trip
approved; but when the unwrapped verdict is not a mapping at all the
controller raises `AttributeError` instead of defaulting. -/
theorem derivedVerdict_failclosed :
    (∀ ev : Dict, dget ev "status" = none →
       ∃ q f, derivedVerdict (.obj ev) = some (.str "REJECTED", q, f)) ∧
    (∀ ev : Dict, dget ev "quality_score" = none →
       ∃ s f, derivedVerdict (.obj ev) = some (s, .int 0, f)) ∧
    (∀ ev : Dict, dget ev "feedback" = none →
       ∃ s q, derivedVerdict (.obj ev) = some (s, q, .str "No feedback provided")) ∧
    (∀ (B : Behaviour) (g o : String) (instr : Val) (inp : Dict) (m : Nat),
       statuslessAlways B →
       ∀ i l, (run_with_evaluation B g o instr inp m).2.get? i = some l →
         approvedLog l = false) ∧
    (∀ (B : Behaviour) (g o : String) (instr : Val) (inp : Dict) (m : Nat),
       1 ≤ m →
       derivedVerdict (stepLog B g o instr inp 1 inp).evaluation = none →
       (run_with_evaluation B g o instr inp m).1 = .error .attributeError) := by
  refine ⟨?_, ?_, ?_, ?_, ?_⟩
  · intro ev h
    exact ⟨dgetD ev "quality_score" (.int 0), dgetD ev "feedback" (.str "No feedback provided"),
      by simp [derivedVerdict, dgetD, h]⟩
  · intro ev h
    exact ⟨dgetD ev "status" (.str "REJECTED"), dgetD ev "feedback" (.str "No feedback provided"),
      by simp [derivedVerdict, dgetD, h]⟩
  · intro ev h
    exact ⟨dgetD ev "status" (.str "REJECTED"), dgetD ev "quality_score" (.int 0),
      by simp [derivedVerdict, dgetD, h]⟩
  · intro B g o instr inp m H i l hl
    obtain ⟨hlen, hval⟩ := List.get?_eq_some.mp hl
    have hget := loopGo_get? B g o instr inp m 0 (dcopy inp) .null .null i hlen
    have hl' : l = stepLog B g o instr inp (0 + i + 1) (curSeq B g o instr inp 0 (dcopy inp) i) := by
      have := hget.symm.trans hl
      exact (Option.some_inj.mp this).symm
    rw [hl']
    exact statusless_step B g o instr inp H _ _
  · intro B g o instr inp m hm hdv
    obtain ⟨f, rfl⟩ := Nat.exists_eq_add_of_le hm
    show (loopGo B g o instr inp (1 + f) 0 (dcopy inp) Val.null Val.null).1 = _
    rw [Nat.add_comm 1 f, loopGo_succ_none B g o instr inp f 0 (dcopy inp) Val.null Val.null hdv]

theorem derivedVerdict_failclosed_witness :
    (∃ q f, derivedVerdict (.obj [("foo", .int 1)]) = some (.str "REJECTED", q, f)) ∧
    approvedLog ⟨[], [("x", .int 1)], .obj [("x", .int 1)], .obj [("quality_score", .int 10)]⟩ = false :=
  ⟨derivedVerdict_failclosed.1 [("foo", .int 1)] rfl,
   derivedVerdict_failclosed.2.2.2.1
     ⟨fun _ _ => [("x", .int 1)], fun _ _ => [("quality_score", .int 10)]⟩
     "planner" "curriculum" (.str "instr") [] 2 (fun _ _ => ⟨_, rfl, rfl⟩) 0
     ⟨[], [("x", .int 1)], .obj [("x", .int 1)], .obj [("quality_score", .int 10)]⟩ rfl⟩

/-- C7 counterexample: an evaluator output `{"evaluation_result": 42}` is a
malformed verdict, but instead of the fail-closed REJECTED default the
loop controller raises `AttributeError` (line 256 calls `.get` on the
non-mapping `42`). -/
theorem run_with_evaluation_malformed_verdict_counterexample :
    (run_with_evaluation scenarioBadVerdictB "planner" "curriculum" (Val.str "instr") [] 3).1 =
      .error PyErr.attributeError := rfl

section HeapLemmas

lemma getD_set_ne : ∀ (l : List Dict) (i j : Nat) (d : Dict), i ≠ j →
    (l.set i d).getD j [] = l.getD j [] := by
  intro l
  induction l with
  | nil => intro i j d _; simp
  | cons x t ih =>
    intro i j d hij
    cases i with
    | zero =>
      cases j with
      | zero => exact absurd rfl hij
      | succ j' => simp [List.getD]
    | succ i' =>
      cases j with
      | zero => simp [List.getD]
      | succ j' =>
        simp only [List.set_cons_succ, List.getD_cons_succ]
        exact ih i' j' d (by omega)

lemma getD_append_left : ∀ (l l' : List Dict) (j : Nat), j < l.length →
    (l ++ l').getD j [] = l.getD j [] := by
  intro l
  induction l with
  | nil => intro l' j h; simp at h
  | cons x t ih =>
    intro l' j h
    cases j with
    | zero => simp [List.getD]
    | succ j' =>
      simp only [List.cons_append, List.getD_cons_succ]
      exact ih l' j' (by simpa using h)

lemma loopGoHeap_frame (B : Behaviour) (g o : String) (instr : Val) (inputRef : Nat) :
    ∀ (fuel iter curRef : Nat) (h : Heap) (s : Nat), s ≠ curRef →
    ((loopGoHeap B g o instr inputRef fuel iter curRef h).2).read s = h.read s := by
  intro fuel
  induction fuel with
  | zero => intro iter curRef h s hs; rfl
  | succ f ih =>
    intro iter curRef h s hs
    show ((match derivedVerdict (stepLog B g o instr (h.read inputRef) (iter + 1) (h.read curRef)).evaluation with
      | some (status, _score, feedback) =>
        if isApproved status then
          (Except.ok (resultDict (stepLog B g o instr (h.read inputRef) (iter + 1) (h.read curRef)).content
            (stepLog B g o instr (h.read inputRef) (iter + 1) (h.read curRef)).evaluation (iter + 1)), h)
        else if 0 < f then
          loopGoHeap B g o instr inputRef f (iter + 1) curRef
            (h.write curRef (dset (h.read curRef) "previous_feedback" feedback))
        else
          (Except.ok (resultDictW (stepLog B g o instr (h.read inputRef) (iter + 1) (h.read curRef)).content
            (stepLog B g o instr (h.read inputRef) (iter + 1) (h.read curRef)).evaluation (iter + 1)), h)
      | none => (.error .attributeError, h)).2).read s = h.read s
    rcases derivedVerdict ((stepLog B g o instr (h.read inputRef) (iter + 1) (h.read curRef)).evaluation) with _ | ⟨st, sc, fb⟩
    · rfl
    · dsimp only
      by_cases hap : isApproved st
      · simp [hap]
      · by_cases hf : 0 < f
        · simp only [hap, Bool.false_eq_true, if_false, if_pos hf]
          rw [ih (iter + 1) curRef (h.write curRef (dset (h.read curRef) "previous_feedback" fb)) s hs]
          show (Heap.mk (h.cells.set curRef _)).cells.getD s [] = h.read s
          exact getD_set_ne h.cells curRef s _ (fun he => hs he.symm)
        · simp [hap, hf]

end HeapLemmas

/-- C10: `run_with_evaluation` never mutates the caller's `input_data`
object — the `previous_feedback` write goes to the shallow copy allocated
at entry, so after the call (under any behaviour, approved or exhausted)
the caller's dictionary has exactly the entries it had before, and in
particular never gains a `previous_feedback` key it did not have. -/
theorem run_with_evaluation_heap_no_mutation
    (B : Behaviour) (g o : String) (instr : Val) (h : Heap) (inputRef m : Nat)
    (href : inputRef < h.cells.length) :
    ((run_with_evaluation_heap B g o instr h inputRef m).2).read inputRef = h.read inputRef ∧
    (dget (h.read inputRef) "previous_feedback" = none →
      dget (((run_with_evaluation_heap B g o instr h inputRef m).2).read inputRef)
        "previous_feedback" = none) := by
  have hmain : ((run_with_evaluation_heap B g o instr h inputRef m).2).read inputRef = h.read inputRef := by
    show ((loopGoHeap B g o instr inputRef m 0 (h.alloc (h.read inputRef)).2
      (h.alloc (h.read inputRef)).1).2).read inputRef = h.read inputRef
    rw [loopGoHeap_frame B g o instr inputRef m 0 (h.alloc (h.read inputRef)).2
      (h.alloc (h.read inputRef)).1 inputRef (by show inputRef ≠ h.cells.length; omega)]
    show (h.cells ++ [h.read inputRef]).getD inputRef [] = h.read inputRef
    exact getD_append_left h.cells [h.read inputRef] inputRef href
  exact ⟨hmain, fun hnone => by rw [hmain]; exact hnone⟩

theorem run_with_evaluation_heap_no_mutation_witness :
    ((run_with_evaluation_heap scenarioRejectB "planner" "curriculum" (.str "instr")
        ⟨[[("board", .str "SSC")]]⟩ 0 2).2).read 0 = [("board", Val.str "SSC")] := by
  have h := run_with_evaluation_heap_no_mutation scenarioRejectB "planner" "curriculum"
    (.str "instr") ⟨[[("board", .str "SSC")]]⟩ 0 2 (by simp)
  exact h.1

/-- C9: a lookup error is never propagated — the executor falls back to the
handler's `create_session` call, whose outcome alone then determines the
result; and an error leaves `_get_or_create_session` exactly when the
lookup did not yield a session and no creation attempt that ran yielded
one (lookup raised or returned nothing, and creation also raised or
returned nothing). -/
theorem get_or_create_session_fallback {E S : Type}
    (lookup createInTry createInHandler : Except E (Option S)) :
    ((∃ e, lookup = .error e) →
       get_or_create_session lookup createInTry createInHandler =
         (match createInHandler with
          | .ok (some s) => .ok s
          | .ok none => .error .runtimeError
          | .error e' => .error (.fromService e'))) ∧
    ((∃ x, get_or_create_session lookup createInTry createInHandler = .error x) ↔
       (¬ yieldsSession lookup ∧
        ¬ creationYielded lookup createInTry createInHandler)) := by
  constructor
  · rintro ⟨e, rfl⟩
    rcases createInHandler with e' | s
    · rfl
    · rcases s with _ | s <;> rfl
  · rcases lookup with e | s
    · constructor
      · rintro ⟨x, hx⟩
        refine ⟨?_, ?_⟩
        · rintro ⟨s, hs⟩; exact absurd hs (by simp)
        · rintro (⟨hnone, -⟩ | ⟨-, s, hs⟩)
          · exact absurd hnone (by simp)
          · subst hs
            simp [get_or_create_session] at hx
      · rintro ⟨h1, h2⟩
        rcases createInHandler with e' | s
        · exact ⟨.fromService e', rfl⟩
        · rcases s with _ | s
          · exact ⟨.runtimeError, rfl⟩
          · exact absurd (Or.inr ⟨Or.inl ⟨e, rfl⟩, s, rfl⟩) h2
    · rcases s with _ | s
      · constructor
        · rintro ⟨x, hx⟩
          refine ⟨?_, ?_⟩
          · rintro ⟨s, hs⟩; exact absurd hs (by simp)
          · rintro (⟨-, s, hs⟩ | ⟨hr, s, hs⟩)
            · subst hs
              simp [get_or_create_session] at hx
            · rcases hr with ⟨e, he⟩ | ⟨-, e, he⟩
              · exact absurd he (by simp)
              · subst he hs
                simp [get_or_create_session] at hx
        · rintro ⟨h1, h2⟩
          rcases createInTry with e | s
          · rcases createInHandler with e' | s
            · exact ⟨.fromService e', rfl⟩
            · rcases s with _ | s
              · exact ⟨.runtimeError, rfl⟩
              · exact absurd (Or.inr ⟨Or.inr ⟨rfl, e, rfl⟩, s, rfl⟩) h2
          · rcases s with _ | s
            · exact ⟨.runtimeError, rfl⟩
            · exact absurd (Or.inl ⟨rfl, s, rfl⟩) h2
      · constructor
        · rintro ⟨x, hx⟩
          exact absurd hx (by simp [get_or_create_session])
        · rintro ⟨h1, -⟩
          exact absurd ⟨s, rfl⟩ h1

theorem get_or_create_session_fallback_witness :
    get_or_create_session (Except.error () : Except Unit (Option Nat))
      (.ok none) (.ok (some 7)) = .ok 7 := by
  have h := (get_or_create_session_fallback (Except.error () : Except Unit (Option Nat))
    (.ok none) (.ok (some 7))).1 ⟨(), rfl⟩
  simpa using h

section PipelineLemmas

lemma lessonStage_spec (Bl : Behaviour) (instrL : Val) (tin : Dict) (curv : Val)
    (L : Dict → List Val)
    (hl : ∀ d, ∃ lr lc, (run_with_evaluation Bl "lesson" "lessons" instrL d 2).1 = .ok lr ∧
       dget lr "content" = some (.obj lc) ∧ dgetD lc "lessons" (.arr []) = .arr (L d)) :
    ∀ (ws : List Val) (acc : List Val) (calls : List Dict),
      (∀ w ∈ ws, ∃ wd, w = .obj wd) →
      lessonStage Bl instrL tin curv ws acc calls =
        (.ok (acc ++ (ws.map (fun w => L (mkLessonInput tin curv (weekNumOf w)))).flatten),
         calls ++ ws.map (fun w => mkLessonInput tin curv (weekNumOf w))) := by
  intro ws
  induction ws with
  | nil => intro acc calls _; simp [lessonStage]
  | cons w rest ih =>
    intro acc calls hws
    obtain ⟨wd, rfl⟩ := hws w (by simp)
    obtain ⟨lr, lc, hlr, hlc, hls⟩ := hl (mkLessonInput tin curv (dgetD wd "week" (.int 1)))
    show (match (run_with_evaluation Bl "lesson" "lessons" instrL
        (mkLessonInput tin curv (dgetD wd "week" (.int 1))) 2).1 with
      | .ok lr =>
        match dget lr "content" with
        | some (.obj lc) =>
          match dgetD lc "lessons" (.arr []) with
          | .arr ls =>
            lessonStage Bl instrL tin curv rest (acc ++ ls)
              (calls ++ [mkLessonInput tin curv (dgetD wd "week" (.int 1))])
          | _ => (.error .typeError, calls ++ [mkLessonInput tin curv (dgetD wd "week" (.int 1))])
        | some _ => (.error .attributeError, calls ++ [mkLessonInput tin curv (dgetD wd "week" (.int 1))])
        | none => (.error .keyError, calls ++ [mkLessonInput tin curv (dgetD wd "week" (.int 1))])
      | .error e => (.error e, calls ++ [mkLessonInput tin curv (dgetD wd "week" (.int 1))])) = _
    rw [hlr]
    dsimp only
    rw [hlc]
    dsimp only
    rw [hls]
    dsimp only
    rw [ih (acc ++ L (mkLessonInput tin curv (dgetD wd "week" (.int 1))))
      (calls ++ [mkLessonInput tin curv (dgetD wd "week" (.int 1))])
      (fun w hw => hws w (by simp [hw]))]
    simp [weekNumOf]

end PipelineLemmas

/-- C8: in `run_full_pipeline`, whenever the planning stage succeeds with a
content mapping whose `curriculum` is a list of `units` (mappings, however
many, and for any `duration_weeks` in the teacher input) and the lesson
loop behaves as a function `L` of its input, the lesson-design stage is
invoked exactly once per unit of `units.take 2`, each time with the unit's
week identifier folded into the input, and on overall success the result's
`lessons` list is the concatenation of the per-unit lesson lists in
order. -/
theorem run_full_pipeline_first_two_units
    (Bp Bl Ba : Behaviour) (Bx : Dict → Dict) (instrP instrL instrA : Val)
    (fid sid : Val) (tin : Dict) (cr cpd : Dict) (units : List Val) (L : Dict → List Val)
    (hp : (run_with_evaluation Bp "planner" "curriculum" instrP
        (dset (dset tin "folder_id" fid) "spreadsheet_id" sid) 3).1 = .ok cr)
    (hc : dget cr "content" = some (.obj cpd))
    (hu : dgetD cpd "curriculum" (.arr []) = .arr units)
    (hw : ∀ w ∈ units.take 2, ∃ wd, w = .obj wd)
    (hl : ∀ d, ∃ lr lc, (run_with_evaluation Bl "lesson" "lessons" instrL d 2).1 = .ok lr ∧
       dget lr "content" = some (.obj lc) ∧ dgetD lc "lessons" (.arr []) = .arr (L d)) :
    (run_full_pipeline Bp Bl Ba Bx instrP instrL instrA fid sid tin).2 =
      (units.take 2).map (fun w =>
        mkLessonInput (dset (dset tin "folder_id" fid) "spreadsheet_id" sid) (.arr units)
          (weekNumOf w)) ∧
    (∀ r, (run_full_pipeline Bp Bl Ba Bx instrP instrL instrA fid sid tin).1 = .ok r →
       dget r "lessons" = some (.arr ((units.take 2).map (fun w =>
         L (mkLessonInput (dset (dset tin "folder_id" fid) "spreadsheet_id" sid) (.arr units)
           (weekNumOf w)))).flatten)) := by
  have hstage := lessonStage_spec Bl instrL (dset (dset tin "folder_id" fid) "spreadsheet_id" sid)
    (.arr units) L hl (units.take 2) [] [] hw
  simp only [run_full_pipeline]
  rw [hp]
  dsimp only
  rw [hc]
  dsimp only
  rw [hu]
  dsimp only
  rw [hstage]
  dsimp only
  rcases (run_with_evaluation Ba "assessment" "assessments" instrA
      (dset (dset (dset (dset (dset tin "folder_id" fid) "spreadsheet_id" sid)
        "curriculum" (.arr units)) "week_number" (.int 1)) "assessment_type" (.str "quiz")) 2).1
    with e | ar
  · exact ⟨by simp, fun r hr => by simp at hr⟩
  · dsimp only
    rcases dget ar "content" with _ | contentA
    · exact ⟨by simp, fun r hr => by simp at hr⟩
    · dsimp only
      rcases dget (dset (dset tin "folder_id" fid) "spreadsheet_id" sid) "board" with _ | b
      · exact ⟨by simp, fun r hr => by simp at hr⟩
      · rcases dget (dset (dset tin "folder_id" fid) "spreadsheet_id" sid) "grade" with _ | gr
        · exact ⟨by simp, fun r hr => by simp at hr⟩
        · rcases dget (dset (dset tin "folder_id" fid) "spreadsheet_id" sid) "subject" with _ | su
          · exact ⟨by simp, fun r hr => by simp at hr⟩
          · dsimp only
            refine ⟨by simp, ?_⟩
            intro r hr
            simp only [Except.ok.injEq] at hr
            subst hr
            simp [dget]

theorem run_full_pipeline_first_two_units_witness :
    (run_full_pipeline scenarioPlannerB scenarioLessonB scenarioLessonB (fun _ => [])
        (.str "ip") (.str "il") (.str "ia") (.str "fid") (.str "sid") scenarioTin).2 =
      (scenarioUnits.take 2).map (fun w =>
        mkLessonInput (dset (dset scenarioTin "folder_id" (.str "fid")) "spreadsheet_id" (.str "sid"))
          (.arr scenarioUnits) (weekNumOf w)) ∧
    ((run_full_pipeline scenarioPlannerB scenarioLessonB scenarioLessonB (fun _ => [])
        (.str "ip") (.str "il") (.str "ia") (.str "fid") (.str "sid") scenarioTin).2).length = 2 := by
  have h := run_full_pipeline_first_two_units scenarioPlannerB scenarioLessonB scenarioLessonB
    (fun _ => []) (.str "ip") (.str "il") (.str "ia") (.str "fid") (.str "sid") scenarioTin
    _ [("curriculum", .arr scenarioUnits)] scenarioUnits (fun _ => [.str "L1"])
    rfl rfl rfl
    (by
      intro w hw
      simp [scenarioUnits] at hw
      rcases hw with rfl | rfl
      · exact ⟨_, rfl⟩
      · exact ⟨_, rfl⟩)
    (fun d => ⟨_, [("lessons", .arr [.str "L1"])], rfl, rfl, rfl⟩)
  refine ⟨h.1, ?_⟩
  rw [h.1]
  rfl

section NumberLemmas

lemma digitChar_spec (d : Nat) (h : d < 10) :
    (digitChar d).isDigit = true ∧ (digitChar d).toNat - '0'.toNat = d := by
  interval_cases d <;> exact ⟨by decide, by decide⟩

lemma digitsToNat_append (xs : List Char) (c : Char) :
    digitsToNat (xs ++ [c]) = 10 * digitsToNat xs + (c.toNat - '0'.toNat) := by
  have step : ∀ (a : Nat), List.foldl (fun acc ch => acc * 10 + (ch.toNat - '0'.toNat)) a (xs ++ [c]) =
      (List.foldl (fun acc ch => acc * 10 + (ch.toNat - '0'.toNat)) a xs) * 10 + (c.toNat - '0'.toNat) := by
    intro a
    rw [List.foldl_append]
    rfl
  show List.foldl _ 0 (xs ++ [c]) = _
  rw [step 0]
  unfold digitsToNat
  omega

lemma natToCharsAux_spec : ∀ (fuel n : Nat), n < fuel →
    digitsToNat (natToCharsAux fuel n) = n ∧ natToCharsAux fuel n ≠ [] ∧
    ∀ c ∈ natToCharsAux fuel n, c.isDigit = true := by
  intro fuel
  induction fuel with
  | zero => intro n h; omega
  | succ f ih =>
    intro n h
    by_cases h10 : n < 10
    · refine ⟨?_, ?_, ?_⟩
      · show digitsToNat (if n < 10 then [digitChar n] else _) = n
        rw [if_pos h10]
        show digitsToNat ([] ++ [digitChar n]) = n
        rw [digitsToNat_append]
        have := (digitChar_spec n h10).2
        show 10 * digitsToNat [] + _ = n
        unfold digitsToNat
        simp only [List.foldl_nil]
        omega
      · show (if n < 10 then [digitChar n] else _) ≠ []
        rw [if_pos h10]; simp
      · intro c hc
        rw [show natToCharsAux (f + 1) n = if n < 10 then [digitChar n] else
          natToCharsAux f (n / 10) ++ [digitChar (n % 10)] from rfl, if_pos h10] at hc
        simp at hc
        subst hc
        exact (digitChar_spec n h10).1
    · have hdiv : n / 10 < f := by
        have h1 : n / 10 < n := Nat.div_lt_self (by omega) (by omega)
        omega
      obtain ⟨ih1, ih2, ih3⟩ := ih (n / 10) hdiv
      have hmod : n % 10 < 10 := Nat.mod_lt _ (by omega)
      refine ⟨?_, ?_, ?_⟩
      · show digitsToNat (if n < 10 then [digitChar n] else
          natToCharsAux f (n / 10) ++ [digitChar (n % 10)]) = n
        rw [if_neg h10, digitsToNat_append, ih1]
        have := (digitChar_spec (n % 10) hmod).2
        omega
      · show (if n < 10 then [digitChar n] else
          natToCharsAux f (n / 10) ++ [digitChar (n % 10)]) ≠ []
        rw [if_neg h10]
        simp
      · intro c hc
        rw [show natToCharsAux (f + 1) n = if n < 10 then [digitChar n] else
          natToCharsAux f (n / 10) ++ [digitChar (n % 10)] from rfl, if_neg h10] at hc
        simp only [List.mem_append, List.mem_singleton] at hc
        rcases hc with hc | hc
        · exact ih3 c hc
        · subst hc; exact (digitChar_spec (n % 10) hmod).1

lemma natToChars_spec (n : Nat) :
    digitsToNat (natToChars n) = n ∧ natToChars n ≠ [] ∧
    ∀ c ∈ natToChars n, c.isDigit = true :=
  natToCharsAux_spec (n + 1) n (by omega)

lemma takeDigits_append (ds : List Char) (rest : List Char)
    (hds : ∀ c ∈ ds, c.isDigit = true)
    (hrest : ∀ c, rest.head? = some c → c.isDigit = false) :
    takeDigits (ds ++ rest) = (ds, rest) := by
  induction ds with
  | nil =>
    cases rest with
    | nil => rfl
    | cons c r =>
      show takeDigits (c :: r) = ([], c :: r)
      have hc := hrest c rfl
      show (if c.isDigit then _ else (([] : List Char), c :: r)) = ([], c :: r)
      rw [hc]
      simp
  | cons d ds' ih =>
    have hd : d.isDigit = true := hds d (by simp)
    show (if d.isDigit then
        ((takeDigits (ds' ++ rest)).1.cons d, (takeDigits (ds' ++ rest)).2) else _) = _
    rw [hd]
    rw [ih (fun c hc => hds c (by simp [hc]))]
    simp

end NumberLemmas

section IntTokLemmas

lemma parseIntTok_natToChars (m : Nat) (rest : Str)
    (hrest : ∀ c, rest.head? = some c → c.isDigit = false) :
    parseIntTok (natToChars m ++ rest) = some ((m : Int), rest) := by
  obtain ⟨hval, hne, hdig⟩ := natToChars_spec m
  have htake := takeDigits_append (natToChars m) rest hdig hrest
  rcases hN : natToChars m with _ | ⟨c, ds⟩
  · exact absurd hN hne
  · have hc : c.isDigit = true := hdig c (by rw [hN]; simp)
    have hcm : c ≠ '-' := by
      intro hcm
      rw [hcm] at hc
      exact absurd hc (by decide)
    show parseIntTok (c :: (ds ++ rest)) = _
    simp only [parseIntTok]
    rw [if_neg hcm]
    rw [hN] at htake
    have : takeDigits (c :: (ds ++ rest)) = (c :: ds, rest) := by
      rw [show c :: (ds ++ rest) = (c :: ds) ++ rest from rfl]
      exact htake
    rw [this]
    rw [hN] at hval
    show some ((digitsToNat (c :: ds) : Int), rest) = _
    rw [hval]

lemma parseIntTok_intToChars (n : Int) (rest : Str)
    (hrest : ∀ c, rest.head? = some c → c.isDigit = false) :
    parseIntTok (intToChars n ++ rest) = some (n, rest) := by
  by_cases hn : n < 0
  · show parseIntTok ((if n < 0 then '-' :: natToChars (-n).toNat else natToChars n.toNat) ++ rest) = _
    rw [if_pos hn]
    show parseIntTok ('-' :: (natToChars (-n).toNat ++ rest)) = _
    simp only [parseIntTok, if_true]
    obtain ⟨hval, hne, hdig⟩ := natToChars_spec (-n).toNat
    have htake := takeDigits_append (natToChars (-n).toNat) rest hdig hrest
    rcases hN : natToChars (-n).toNat with _ | ⟨c, ds⟩
    · exact absurd hN hne
    · rw [hN] at htake hval
      rw [htake]
      show some (-(digitsToNat (c :: ds) : Int), rest) = _
      rw [hval]
      congr 1
      congr 1
      omega
  · show parseIntTok ((if n < 0 then '-' :: natToChars (-n).toNat else natToChars n.toNat) ++ rest) = _
    rw [if_neg hn]
    rw [parseIntTok_natToChars n.toNat rest hrest]
    congr 2
    omega

end IntTokLemmas

section StringLemmas

lemma hexVal_hexDigit (d : Nat) (h : d < 16) : hexVal (hexDigit d) = some d := by
  interval_cases d <;> decide

lemma escapeStr_cons (c : Char) (cs : List Char) :
    escapeStr (c :: cs) = escapeChar c ++ escapeStr cs := by
  simp [escapeStr]

lemma parseStringBody_quote (t : Str) : parseStringBody ('"' :: t) = some ([], t) := by
  rw [parseStringBody.eq_def]
  dsimp only
  rw [if_pos rfl]

lemma parseStringBody_esc_step (e d : Char) (he : e ≠ 'u') (hd : escTable e = some d) (r : Str) :
    parseStringBody ('\\' :: e :: r) = (parseStringBody r).map (fun p => (d :: p.1, p.2)) := by
  rw [parseStringBody.eq_def]
  dsimp only
  rw [if_neg (by decide), if_pos rfl, if_neg he, hd]

lemma parseStringBody_char_step (c : Char) (h1 : c ≠ '"') (h2 : c ≠ '\\') (r : Str) :
    parseStringBody (c :: r) = (parseStringBody r).map (fun p => (c :: p.1, p.2)) := by
  rw [parseStringBody.eq_def]
  dsimp only
  rw [if_neg h1, if_neg h2]

lemma parseStringBody_escape : ∀ (cs : List Char) (t : Str),
    parseStringBody (escapeStr cs ++ '"' :: t) = some (cs, t) := by
  intro cs
  induction cs with
  | nil =>
    intro t
    show parseStringBody ('"' :: t) = some ([], t)
    exact parseStringBody_quote t
  | cons c cs ih =>
    intro t
    rw [escapeStr_cons, List.append_assoc]
    by_cases h1 : c = '"'
    · subst h1
      rw [show escapeChar '"' = ['\\', '"'] from rfl]
      rw [show (['\\', '"'] : Str) ++ (escapeStr cs ++ '"' :: t) =
        '\\' :: '"' :: (escapeStr cs ++ '"' :: t) from rfl]
      rw [parseStringBody_esc_step '"' '"' (by decide) rfl, ih]
      rfl
    · by_cases h2 : c = '\\'
      · subst h2
        rw [show escapeChar '\\' = ['\\', '\\'] from rfl]
        rw [show (['\\', '\\'] : Str) ++ (escapeStr cs ++ '"' :: t) =
          '\\' :: '\\' :: (escapeStr cs ++ '"' :: t) from rfl]
        rw [parseStringBody_esc_step '\\' '\\' (by decide) rfl, ih]
        rfl
      · by_cases h3 : c = '\n'
        · subst h3
          rw [show escapeChar '\n' = ['\\', 'n'] from rfl]
          rw [show (['\\', 'n'] : Str) ++ (escapeStr cs ++ '"' :: t) =
            '\\' :: 'n' :: (escapeStr cs ++ '"' :: t) from rfl]
          rw [parseStringBody_esc_step 'n' '\n' (by decide) rfl, ih]
          rfl
        · by_cases h4 : c = '\r'
          · subst h4
            rw [show escapeChar '\r' = ['\\', 'r'] from rfl]
            rw [show (['\\', 'r'] : Str) ++ (escapeStr cs ++ '"' :: t) =
              '\\' :: 'r' :: (escapeStr cs ++ '"' :: t) from rfl]
            rw [parseStringBody_esc_step 'r' '\r' (by decide) rfl, ih]
            rfl
          · by_cases h5 : c = '\t'
            · subst h5
              rw [show escapeChar '\t' = ['\\', 't'] from rfl]
              rw [show (['\\', 't'] : Str) ++ (escapeStr cs ++ '"' :: t) =
                '\\' :: 't' :: (escapeStr cs ++ '"' :: t) from rfl]
              rw [parseStringBody_esc_step 't' '\t' (by decide) rfl, ih]
              rfl
            · by_cases h6 : c.toNat < 32
              · have hesc : escapeChar c =
                    ['\\', 'u', '0', '0', hexDigit (c.toNat / 16), hexDigit (c.toNat % 16)] := by
                  simp [escapeChar, h1, h2, h3, h4, h5, h6]
                rw [hesc]
                have hhi : hexVal (hexDigit (c.toNat / 16)) = some (c.toNat / 16) :=
                  hexVal_hexDigit _ (by omega)
                have hlo : hexVal (hexDigit (c.toNat % 16)) = some (c.toNat % 16) :=
                  hexVal_hexDigit _ (by omega)
                rw [show (['\\', 'u', '0', '0', hexDigit (c.toNat / 16),
                  hexDigit (c.toNat % 16)] : Str) ++ (escapeStr cs ++ '"' :: t) =
                  '\\' :: 'u' :: '0' :: '0' :: hexDigit (c.toNat / 16) ::
                  hexDigit (c.toNat % 16) :: (escapeStr cs ++ '"' :: t) from rfl]
                rw [parseStringBody.eq_def]
                dsimp only
                rw [if_neg (by decide), if_pos rfl, if_pos rfl]
                rw [show hexVal '0' = some 0 from rfl, hhi, hlo]
                dsimp only
                have hn : ((0 * 16 + 0) * 16 + c.toNat / 16) * 16 + c.toNat % 16 = c.toNat := by
                  omega
                rw [hn]
                have hvalid : c.toNat.isValidChar := Or.inl (by omega)
                rw [if_pos hvalid, ih]
                simp [Char.ofNat_toNat]
              · have hesc : escapeChar c = [c] := by
                  simp [escapeChar, h1, h2, h3, h4, h5, h6]
                rw [hesc]
                rw [show ([c] : Str) ++ (escapeStr cs ++ '"' :: t) =
                  c :: (escapeStr cs ++ '"' :: t) from rfl]
                rw [parseStringBody_char_step c h1 h2, ih]
                rfl

end StringLemmas

section ParserStepLemmas

lemma skipWs_not_ws (c : Char) (s : Str) (h : isJsonWs c = false) : skipWs (c :: s) = c :: s := by
  simp [skipWs, h]

lemma parseVal_ws_cons (f : Nat) (c : Char) (s : Str) (h : isJsonWs c = true) :
    parseVal f (c :: s) = parseVal f s := by
  cases f with
  | zero => rfl
  | succ f =>
    rw [parseVal.eq_def, parseVal.eq_def]
    dsimp only
    rw [show skipWs (c :: s) = skipWs s from by simp [skipWs, h]]

lemma parseMembers_ws_cons (f : Nat) (c : Char) (s : Str) (acc : List (String × Val))
    (h : isJsonWs c = true) :
    parseMembers f (c :: s) acc = parseMembers f s acc := by
  cases f with
  | zero => rfl
  | succ f =>
    rw [parseMembers.eq_def, parseMembers.eq_def]
    dsimp only
    rw [show skipWs (c :: s) = skipWs s from by simp [skipWs, h]]

lemma parseItems_ws_cons (f : Nat) (c : Char) (s : Str) (acc : List Val)
    (h : isJsonWs c = true) :
    parseItems f (c :: s) acc = parseItems f s acc := by
  cases f with
  | zero => rfl
  | succ f =>
    rw [parseItems.eq_def, parseItems.eq_def]
    dsimp only
    rw [parseVal_ws_cons f c s h]

lemma parseVal_obj_step (f : Nat) (r : Str) :
    parseVal (f + 1) ('{' :: r) =
      (match skipWs r with
       | [] => none
       | c' :: r' => if c' = '}' then some (.obj [], r') else parseMembers f (c' :: r') []) := by
  rw [parseVal.eq_def]
  dsimp only
  rw [skipWs_not_ws '{' r (by decide)]
  dsimp only
  rw [if_pos rfl]

lemma parseVal_arr_step (f : Nat) (r : Str) :
    parseVal (f + 1) ('[' :: r) =
      (match skipWs r with
       | [] => none
       | c' :: r' => if c' = ']' then some (.arr [], r') else parseItems f (c' :: r') []) := by
  rw [parseVal.eq_def]
  dsimp only
  rw [skipWs_not_ws '[' r (by decide)]
  dsimp only
  rw [if_neg (by decide), if_pos rfl]

lemma parseVal_str_step (f : Nat) (r : Str) :
    parseVal (f + 1) ('"' :: r) =
      (parseStringBody r).map (fun p => (.str (String.mk p.1), p.2)) := by
  rw [parseVal.eq_def]
  dsimp only
  rw [skipWs_not_ws '"' r (by decide)]
  dsimp only
  rw [if_neg (by decide), if_neg (by decide), if_pos rfl]

lemma parseVal_true (f : Nat) (rest : Str) :
    parseVal (f + 1) ('t' :: 'r' :: 'u' :: 'e' :: rest) = some (.bool true, rest) := by
  rw [parseVal.eq_def]
  dsimp only
  rw [skipWs_not_ws 't' _ (by decide)]
  dsimp only
  rw [if_neg (by decide), if_neg (by decide), if_neg (by decide), if_pos rfl]
  rfl

lemma parseVal_false (f : Nat) (rest : Str) :
    parseVal (f + 1) ('f' :: 'a' :: 'l' :: 's' :: 'e' :: rest) = some (.bool false, rest) := by
  rw [parseVal.eq_def]
  dsimp only
  rw [skipWs_not_ws 'f' _ (by decide)]
  dsimp only
  rw [if_neg (by decide), if_neg (by decide), if_neg (by decide), if_neg (by decide), if_pos rfl]
  rfl

lemma parseVal_null (f : Nat) (rest : Str) :
    parseVal (f + 1) ('n' :: 'u' :: 'l' :: 'l' :: rest) = some (.null, rest) := by
  rw [parseVal.eq_def]
  dsimp only
  rw [skipWs_not_ws 'n' _ (by decide)]
  dsimp only
  rw [if_neg (by decide), if_neg (by decide), if_neg (by decide), if_neg (by decide),
    if_neg (by decide), if_pos rfl]
  rfl

lemma parseVal_int_step (f : Nat) (c : Char) (r : Str)
    (hws : isJsonWs c = false) (h1 : c ≠ '{') (h2 : c ≠ '[') (h3 : c ≠ '"')
    (h4 : c ≠ 't') (h5 : c ≠ 'f') (h6 : c ≠ 'n') :
    parseVal (f + 1) (c :: r) = (parseIntTok (c :: r)).map (fun p => (.int p.1, p.2)) := by
  rw [parseVal.eq_def]
  dsimp only
  rw [skipWs_not_ws c r hws]
  dsimp only
  rw [if_neg h1, if_neg h2, if_neg h3, if_neg h4, if_neg h5, if_neg h6]

end ParserStepLemmas

section HeadLemmas

lemma digit_head_props (c : Char) (h : c.isDigit = true) :
    isJsonWs c = false ∧ c ≠ '{' ∧ c ≠ '[' ∧ c ≠ '"' ∧ c ≠ 't' ∧ c ≠ 'f' ∧ c ≠ 'n' ∧
    c ≠ ']' ∧ c ≠ '}' ∧ c ≠ ',' := by
  have hws : isJsonWs c = false := by
    by_cases w1 : c = ' '
    · subst w1; exact absurd h (by decide)
    · by_cases w2 : c = '\t'
      · subst w2; exact absurd h (by decide)
      · by_cases w3 : c = '\n'
        · subst w3; exact absurd h (by decide)
        · by_cases w4 : c = '\r'
          · subst w4; exact absurd h (by decide)
          · simp [isJsonWs, w1, w2, w3, w4]
  refine ⟨hws, ?_, ?_, ?_, ?_, ?_, ?_, ?_, ?_, ?_⟩ <;>
    (intro he; subst he; exact absurd h (by decide))

/-- The first character of a serialized value: never whitespace and never a
closing delimiter or separator. -/
lemma dumps_head (v : Val) : ∃ c cs, dumpsVal v = c :: cs ∧ isJsonWs c = false ∧
    c ≠ ']' ∧ c ≠ '}' ∧ c ≠ ',' := by
  cases v with
  | null => exact ⟨'n', _, rfl, by decide, by decide, by decide, by decide⟩
  | bool b => cases b with
    | true => exact ⟨'t', _, rfl, by decide, by decide, by decide, by decide⟩
    | false => exact ⟨'f', _, rfl, by decide, by decide, by decide, by decide⟩
  | int n =>
    show ∃ c cs, intToChars n = c :: cs ∧ _
    by_cases hn : n < 0
    · refine ⟨'-', natToChars (-n).toNat, ?_, by decide, by decide, by decide, by decide⟩
      simp [intToChars, hn]
    · obtain ⟨-, hne, hdig⟩ := natToChars_spec n.toNat
      rcases hN : natToChars n.toNat with _ | ⟨c, cs⟩
      · exact absurd hN hne
      · have hc : c.isDigit = true := hdig c (by rw [hN]; simp)
        obtain ⟨p0, _, _, _, _, _, _, p7, p8, p9⟩ := digit_head_props c hc
        refine ⟨c, cs, ?_, p0, p7, p8, p9⟩
        simp [intToChars, hn, hN]
  | str s => exact ⟨'"', _, rfl, by decide, by decide, by decide, by decide⟩
  | arr xs => exact ⟨'[', _, rfl, by decide, by decide, by decide, by decide⟩
  | obj d => exact ⟨'{', _, rfl, by decide, by decide, by decide, by decide⟩

lemma dumpsObj_cons_head (k : String) (v : Val) (d : List (String × Val)) :
    ∃ tail, dumpsObj ((k, v) :: d) = '"' :: tail := by
  cases d with
  | nil => exact ⟨_, rfl⟩
  | cons m rest => exact ⟨_, rfl⟩

lemma dumpsArr_singleton (x : Val) : dumpsArr [x] = dumpsVal x := rfl

lemma dumpsArr_cons_cons (x y : Val) (ys : List Val) :
    dumpsArr (x :: y :: ys) = dumpsVal x ++ ',' :: ' ' :: dumpsArr (y :: ys) := rfl

lemma dumpsObj_singleton (k : String) (v : Val) :
    dumpsObj [(k, v)] = '"' :: (escapeStr k.data ++ '"' :: ':' :: ' ' :: dumpsVal v) := rfl

lemma dumpsObj_cons_cons (k : String) (v : Val) (m : String × Val) (rest : List (String × Val)) :
    dumpsObj ((k, v) :: m :: rest) =
      ('"' :: (escapeStr k.data ++ '"' :: ':' :: ' ' :: dumpsVal v)) ++
        ',' :: ' ' :: dumpsObj (m :: rest) := rfl

lemma stringMk_data (k : String) : String.mk k.data = k := rfl

end HeadLemmas

section RTMaster

lemma sepRest_head_not_digit {rest : Str} (h : sepRest rest) :
    ∀ c, rest.head? = some c → c.isDigit = false := by
  intro c hc
  rcases h with rfl | ⟨c', r, rfl, hcs⟩
  · simp at hc
  · simp only [List.head?_cons, Option.some_inj] at hc
    subst hc
    rcases hcs with rfl | rfl | rfl <;> decide

lemma vsize_pos : ∀ v, 1 ≤ vsize v := by
  intro v
  cases v <;> simp [vsize] <;> omega

lemma sepRest_comma (c : Char) (r : Str) (h : c = ',' ∨ c = '}' ∨ c = ']') :
    sepRest (c :: r) := Or.inr ⟨c, r, rfl, h⟩

lemma RT_master : ∀ n : Nat,
    (∀ (v : Val) (rest : Str) (fuel : Nat), vsize v ≤ n → vsize v < fuel → sepRest rest →
      parseVal fuel (dumpsVal v ++ rest) = some (v, rest)) ∧
    (∀ (d : List (String × Val)) (acc : List (String × Val)) (rest : Str) (fuel : Nat),
      msize d ≤ n → msize d < fuel → d ≠ [] →
      parseMembers fuel (dumpsObj d ++ '}' :: rest) acc = some (.obj (acc ++ d), rest)) ∧
    (∀ (xs : List Val) (acc : List Val) (rest : Str) (fuel : Nat),
      asize xs ≤ n → asize xs < fuel → xs ≠ [] →
      parseItems fuel (dumpsArr xs ++ ']' :: rest) acc = some (.arr (acc ++ xs), rest)) := by
  intro n
  induction n using Nat.strong_induction_on with
  | _ n IH =>
  refine ⟨?_, ?_, ?_⟩
  · intro v rest fuel hn hfuel hrest
    obtain ⟨f, rfl⟩ : ∃ f, fuel = f + 1 := ⟨fuel - 1, by have := vsize_pos v; omega⟩
    cases v with
    | null => exact parseVal_null f rest
    | bool b =>
      cases b with
      | true => exact parseVal_true f rest
      | false => exact parseVal_false f rest
    | str s =>
      show parseVal (f + 1) ('"' :: ((escapeStr s.data ++ ['"']) ++ rest)) = _
      rw [parseVal_str_step]
      rw [show (escapeStr s.data ++ ['"']) ++ rest = escapeStr s.data ++ '"' :: rest by simp]
      rw [parseStringBody_escape]
      rfl
    | int m =>
      by_cases hm : m < 0
      · have hI : intToChars m = '-' :: natToChars (-m).toNat := by simp [intToChars, hm]
        show parseVal (f + 1) (intToChars m ++ rest) = _
        rw [hI]
        show parseVal (f + 1) ('-' :: (natToChars (-m).toNat ++ rest)) = _
        rw [parseVal_int_step f '-' _ (by decide) (by decide) (by decide) (by decide)
          (by decide) (by decide) (by decide)]

        rw [show '-' :: (natToChars (-m).toNat ++ rest) = intToChars m ++ rest by rw [hI]; rfl]
        rw [parseIntTok_intToChars m rest (sepRest_head_not_digit hrest)]
        rfl
      · obtain ⟨-, hne, hdig⟩ := natToChars_spec m.toNat
        have hI : intToChars m = natToChars m.toNat := by simp [intToChars, hm]
        rcases hN : natToChars m.toNat with _ | ⟨c, cs⟩
        · exact absurd hN hne
        · have hc : c.isDigit = true := hdig c (by rw [hN]; simp)
          obtain ⟨p0, p1, p2, p3, p4, p5, p6, -, -, -⟩ := digit_head_props c hc
          show parseVal (f + 1) (intToChars m ++ rest) = _
          rw [hI, hN]
          show parseVal (f + 1) (c :: (cs ++ rest)) = _
          rw [parseVal_int_step f c _ p0 p1 p2 p3 p4 p5 p6]
          rw [show c :: (cs ++ rest) = intToChars m ++ rest by rw [hI, hN]; rfl]
          rw [parseIntTok_intToChars m rest (sepRest_head_not_digit hrest)]
          rfl
    | arr xs =>
      cases xs with
      | nil =>
        show parseVal (f + 1) ('[' :: ((dumpsArr [] ++ [']']) ++ rest)) = _
        rw [show (dumpsArr [] ++ [']']) ++ rest = ']' :: rest by rfl]
        rw [parseVal_arr_step]
        rw [skipWs_not_ws ']' rest (by decide)]
        dsimp only
        rw [if_pos rfl]
      | cons x xs' =>
        show parseVal (f + 1) ('[' :: ((dumpsArr (x :: xs') ++ [']']) ++ rest)) = _
        rw [show (dumpsArr (x :: xs') ++ [']']) ++ rest = dumpsArr (x :: xs') ++ ']' :: rest by simp]
        rw [parseVal_arr_step]
        obtain ⟨c, cs, hdx, hcws, hc1, hc2, hc3⟩ := dumps_head x
        have hshape : ∃ T, dumpsArr (x :: xs') = dumpsVal x ++ T := by
          cases xs' with
          | nil => exact ⟨[], by simp [dumpsArr_singleton]⟩
          | cons y ys => exact ⟨_, dumpsArr_cons_cons x y ys⟩
        obtain ⟨T, hT⟩ := hshape
        have hhead : dumpsArr (x :: xs') ++ ']' :: rest = c :: (cs ++ T ++ ']' :: rest) := by
          rw [hT, hdx]; simp
        rw [hhead, skipWs_not_ws c _ hcws]
        dsimp only
        rw [if_neg hc1]
        rw [show c :: (cs ++ T ++ ']' :: rest) = dumpsArr (x :: xs') ++ ']' :: rest by
          rw [hhead]]
        have hsz : asize (x :: xs') < n := by
          have : vsize (.arr (x :: xs')) = 1 + asize (x :: xs') := rfl
          omega
        have happ := (IH (asize (x :: xs')) hsz).2.2 (x :: xs') [] rest f
          (le_refl _) (by have : vsize (.arr (x :: xs')) = 1 + asize (x :: xs') := rfl; omega)
          (by simp)
        rw [happ]
        simp
    | obj d =>
      cases d with
      | nil =>
        show parseVal (f + 1) ('{' :: ((dumpsObj [] ++ ['}']) ++ rest)) = _
        rw [show (dumpsObj [] ++ ['}']) ++ rest = '}' :: rest by rfl]
        rw [parseVal_obj_step]
        rw [skipWs_not_ws '}' rest (by decide)]
        dsimp only
        rw [if_pos rfl]
      | cons kv d' =>
        obtain ⟨k, v⟩ := kv
        show parseVal (f + 1) ('{' :: ((dumpsObj ((k, v) :: d') ++ ['}']) ++ rest)) = _
        rw [show (dumpsObj ((k, v) :: d') ++ ['}']) ++ rest =
          dumpsObj ((k, v) :: d') ++ '}' :: rest by simp]
        rw [parseVal_obj_step]
        obtain ⟨tail, htail⟩ := dumpsObj_cons_head k v d'
        have hhead : dumpsObj ((k, v) :: d') ++ '}' :: rest = '"' :: (tail ++ '}' :: rest) := by
          rw [htail]; simp
        rw [hhead, skipWs_not_ws '"' _ (by decide)]
        dsimp only
        rw [if_neg (by decide)]
        rw [show ('"' : Char) :: (tail ++ '}' :: rest) = dumpsObj ((k, v) :: d') ++ '}' :: rest by
          rw [hhead]]
        have hsz : msize ((k, v) :: d') < n := by
          have : vsize (.obj ((k, v) :: d')) = 1 + msize ((k, v) :: d') := rfl
          omega
        have happ := (IH (msize ((k, v) :: d')) hsz).2.1 ((k, v) :: d') [] rest f
          (le_refl _) (by have : vsize (.obj ((k, v) :: d')) = 1 + msize ((k, v) :: d') := rfl; omega)
          (by simp)
        rw [happ]
        simp
  · intro d acc rest fuel hn hfuel hne
    rcases d with _ | ⟨⟨k, v⟩, d'⟩
    · exact absurd rfl hne
    obtain ⟨g, rfl⟩ : ∃ g, fuel = g + 1 := ⟨fuel - 1, by
      have : msize ((k, v) :: d') = 1 + vsize v + msize d' := rfl
      omega⟩
    have hvsub : vsize v < g := by
      have : msize ((k, v) :: d') = 1 + vsize v + msize d' := rfl
      omega
    have hvn : vsize v < n := by
      have : msize ((k, v) :: d') = 1 + vsize v + msize d' := rfl
      omega
    rw [parseMembers.eq_def]
    dsimp only
    cases d' with
    | nil =>
      rw [dumpsObj_singleton]
      have hform : ('"' :: (escapeStr k.data ++ '"' :: ':' :: ' ' :: dumpsVal v)) ++ '}' :: rest =
          '"' :: (escapeStr k.data ++ '"' :: (':' :: ' ' :: (dumpsVal v ++ '}' :: rest))) := by
        simp
      rw [hform, skipWs_not_ws '"' _ (by decide)]
      dsimp only
      rw [if_pos rfl]
      rw [parseStringBody_escape]
      dsimp only
      rw [skipWs_not_ws ':' _ (by decide)]
      dsimp only
      rw [if_pos rfl]
      rw [parseVal_ws_cons g ' ' _ (by decide)]
      rw [(IH (vsize v) hvn).1 v ('}' :: rest) g (le_refl _) hvsub
        (sepRest_comma '}' rest (Or.inr (Or.inl rfl)))]
      dsimp only
      rw [skipWs_not_ws '}' _ (by decide)]
      dsimp only
      rw [if_neg (by decide), if_pos rfl]
    | cons m rest' =>
      rw [dumpsObj_cons_cons]
      have hform : (('"' :: (escapeStr k.data ++ '"' :: ':' :: ' ' :: dumpsVal v)) ++
          ',' :: ' ' :: dumpsObj (m :: rest')) ++ '}' :: rest =
          '"' :: (escapeStr k.data ++ '"' :: (':' :: ' ' ::
            (dumpsVal v ++ ',' :: ' ' :: (dumpsObj (m :: rest') ++ '}' :: rest)))) := by
        simp
      rw [hform, skipWs_not_ws '"' _ (by decide)]
      dsimp only
      rw [if_pos rfl]
      rw [parseStringBody_escape]
      dsimp only
      rw [skipWs_not_ws ':' _ (by decide)]
      dsimp only
      rw [if_pos rfl]
      rw [parseVal_ws_cons g ' ' _ (by decide)]
      rw [(IH (vsize v) hvn).1 v (',' :: ' ' :: (dumpsObj (m :: rest') ++ '}' :: rest)) g
        (le_refl _) hvsub (sepRest_comma ',' _ (Or.inl rfl))]
      dsimp only
      rw [skipWs_not_ws ',' _ (by decide)]
      dsimp only
      rw [if_pos rfl]
      rw [parseMembers_ws_cons g ' ' _ _ (by decide)]
      have hmn : msize (m :: rest') < n := by
        have h1 : msize ((k, v) :: m :: rest') = 1 + vsize v + msize (m :: rest') := rfl
        omega
      have hmg : msize (m :: rest') < g := by
        have h1 : msize ((k, v) :: m :: rest') = 1 + vsize v + msize (m :: rest') := rfl
        omega
      rw [(IH (msize (m :: rest')) hmn).2.1 (m :: rest') (acc ++ [(String.mk k.data, v)]) rest g
        (le_refl _) hmg (by simp)]
      rw [stringMk_data]
      simp
  · intro xs acc rest fuel hn hfuel hne
    rcases xs with _ | ⟨x, xs'⟩
    · exact absurd rfl hne
    obtain ⟨g, rfl⟩ : ∃ g, fuel = g + 1 := ⟨fuel - 1, by
      have : asize (x :: xs') = 1 + vsize x + asize xs' := rfl
      omega⟩
    have hvsub : vsize x < g := by
      have : asize (x :: xs') = 1 + vsize x + asize xs' := rfl
      omega
    have hvn : vsize x < n := by
      have : asize (x :: xs') = 1 + vsize x + asize xs' := rfl
      omega
    rw [parseItems.eq_def]
    dsimp only
    cases xs' with
    | nil =>
      rw [dumpsArr_singleton]
      rw [(IH (vsize x) hvn).1 x (']' :: rest) g (le_refl _) hvsub
        (sepRest_comma ']' rest (Or.inr (Or.inr rfl)))]
      dsimp only
      rw [skipWs_not_ws ']' _ (by decide)]
      dsimp only
      rw [if_neg (by decide), if_pos rfl]
    | cons y ys =>
      rw [dumpsArr_cons_cons]
      have hform : (dumpsVal x ++ ',' :: ' ' :: dumpsArr (y :: ys)) ++ ']' :: rest =
          dumpsVal x ++ ',' :: ' ' :: (dumpsArr (y :: ys) ++ ']' :: rest) := by
        simp
      rw [hform]
      rw [(IH (vsize x) hvn).1 x (',' :: ' ' :: (dumpsArr (y :: ys) ++ ']' :: rest)) g
        (le_refl _) hvsub (sepRest_comma ',' _ (Or.inl rfl))]
      dsimp only
      rw [skipWs_not_ws ',' _ (by decide)]
      dsimp only
      rw [if_pos rfl]
      rw [parseItems_ws_cons g ' ' _ _ (by decide)]
      have hyn : asize (y :: ys) < n := by
        have h1 : asize (x :: y :: ys) = 1 + vsize x + asize (y :: ys) := rfl
        omega
      have hyg : asize (y :: ys) < g := by
        have h1 : asize (x :: y :: ys) = 1 + vsize x + asize (y :: ys) := rfl
        omega
      rw [(IH (asize (y :: ys)) hyn).2.2 (y :: ys) (acc ++ [x]) rest g (le_refl _) hyg (by simp)]
      simp

end RTMaster

section LoadsDumps

lemma dumps_size_le : ∀ n : Nat,
    (∀ v, vsize v ≤ n → vsize v ≤ (dumpsVal v).length) ∧
    (∀ d, msize d ≤ n → msize d ≤ (dumpsObj d).length + 1) ∧
    (∀ xs, asize xs ≤ n → asize xs ≤ (dumpsArr xs).length + 1) := by
  intro n
  induction n using Nat.strong_induction_on with
  | _ n IH =>
  refine ⟨?_, ?_, ?_⟩
  · intro v hn
    cases v with
    | null => simp [vsize, dumpsVal]
    | bool b => cases b <;> simp [vsize, dumpsVal]
    | str s => simp [vsize, dumpsVal]
    | int m =>
      show vsize (.int m) ≤ (intToChars m).length
      by_cases hm : m < 0
      · obtain ⟨-, hne, -⟩ := natToChars_spec (-m).toNat
        have : 1 ≤ (natToChars (-m).toNat).length := by
          cases h : natToChars (-m).toNat with
          | nil => exact absurd h hne
          | cons a b => simp
        simp [vsize, intToChars, hm]
      · obtain ⟨-, hne, -⟩ := natToChars_spec m.toNat
        have h1 : 1 ≤ (natToChars m.toNat).length := by
          cases h : natToChars m.toNat with
          | nil => exact absurd h hne
          | cons a b => simp
        show vsize (.int m) ≤ (if m < 0 then '-' :: natToChars (-m).toNat
          else natToChars m.toNat).length
        rw [if_neg hm]
        show 1 ≤ (natToChars m.toNat).length
        exact h1
    | arr xs =>
      have hsz : asize xs < n := by
        have : vsize (.arr xs) = 1 + asize xs := rfl
        omega
      have := (IH (asize xs) hsz).2.2 xs (le_refl _)
      show 1 + asize xs ≤ ('[' :: (dumpsArr xs ++ [']'])).length
      simp only [List.length_cons, List.length_append, List.length_singleton]
      omega
    | obj d =>
      have hsz : msize d < n := by
        have : vsize (.obj d) = 1 + msize d := rfl
        omega
      have := (IH (msize d) hsz).2.1 d (le_refl _)
      show 1 + msize d ≤ ('{' :: (dumpsObj d ++ ['}'])).length
      simp only [List.length_cons, List.length_append, List.length_singleton]
      omega
  · intro d hn
    cases d with
    | nil => simp [msize]
    | cons kv d' =>
      obtain ⟨k, v⟩ := kv
      have hv : vsize v < n := by
        have : msize ((k, v) :: d') = 1 + vsize v + msize d' := rfl
        omega
      have hv2 := (IH (vsize v) hv).1 v (le_refl _)
      cases d' with
      | nil =>
        show msize [(k, v)] ≤ (dumpsObj [(k, v)]).length + 1
        rw [dumpsObj_singleton]
        have : msize [(k, v)] = 1 + vsize v + 0 := rfl
        simp only [List.length_cons, List.length_append]
        omega
      | cons m rest =>
        have hm : msize (m :: rest) < n := by
          have : msize ((k, v) :: m :: rest) = 1 + vsize v + msize (m :: rest) := rfl
          omega
        have hm2 := (IH (msize (m :: rest)) hm).2.1 (m :: rest) (le_refl _)
        show msize ((k, v) :: m :: rest) ≤ (dumpsObj ((k, v) :: m :: rest)).length + 1
        rw [dumpsObj_cons_cons]
        have : msize ((k, v) :: m :: rest) = 1 + vsize v + msize (m :: rest) := rfl
        simp only [List.length_append, List.length_cons]
        omega
  · intro xs hn
    cases xs with
    | nil => simp [asize]
    | cons x xs' =>
      have hv : vsize x < n := by
        have : asize (x :: xs') = 1 + vsize x + asize xs' := rfl
        omega
      have hv2 := (IH (vsize x) hv).1 x (le_refl _)
      cases xs' with
      | nil =>
        show asize [x] ≤ (dumpsArr [x]).length + 1
        rw [dumpsArr_singleton]
        have : asize [x] = 1 + vsize x + 0 := rfl
        omega
      | cons y ys =>
        have hm : asize (y :: ys) < n := by
          have : asize (x :: y :: ys) = 1 + vsize x + asize (y :: ys) := rfl
          omega
        have hm2 := (IH (asize (y :: ys)) hm).2.2 (y :: ys) (le_refl _)
        show asize (x :: y :: ys) ≤ (dumpsArr (x :: y :: ys)).length + 1
        rw [dumpsArr_cons_cons]
        have : asize (x :: y :: ys) = 1 + vsize x + asize (y :: ys) := rfl
        simp only [List.length_append, List.length_cons]
        omega

/-- Round trip: parsing the serialization of any mapping value recovers it
exactly. -/
lemma loads_dumpsVal_obj (d : List (String × Val)) :
    loads (dumpsVal (.obj d)) = some (.obj d) := by
  have hsize := (dumps_size_le (vsize (.obj d))).1 (.obj d) (le_refl _)
  have h1 := (RT_master (vsize (.obj d))).1 (.obj d) [] ((dumpsVal (.obj d)).length + 1)
    (le_refl _) (by omega) (Or.inl rfl)
  rw [List.append_nil] at h1
  show (match parseVal ((dumpsVal (.obj d)).length + 1) (dumpsVal (.obj d)) with
    | some (v, rest) => if skipWs rest = [] then some v else none
    | none => none) = some (.obj d)
  rw [h1]
  rfl

end LoadsDumps

section FindLemmas

lemma occursAt_beyond (s pat : Str) (i : Nat) (hp : pat ≠ []) (hi : s.length ≤ i) :
    occursAt s pat i = false := by
  rcases pat with _ | ⟨c, p⟩
  · exact absurd rfl hp
  · show ((c :: p).isPrefixOf (s.drop i)) = false
    rw [List.drop_eq_nil_of_le hi]
    rfl

lemma occursAt_append_add (a b pat : Str) (k : Nat) :
    occursAt (a ++ b) pat (a.length + k) = occursAt b pat k := by
  show pat.isPrefixOf ((a ++ b).drop (a.length + k)) = pat.isPrefixOf (b.drop k)
  congr 1
  exact List.drop_append k

lemma occursAt_zero_append (b pat : Str) (x : Str) :
    occursAt (pat ++ x) pat 0 = true := by
  show pat.isPrefixOf ((pat ++ x).drop 0) = true
  rw [List.drop_zero]
  rw [List.isPrefixOf_iff_prefix]
  exact List.prefix_append pat x

lemma occursAt_head (s : Str) (c : Char) (pat : Str) (i : Nat)
    (h : occursAt s (c :: pat) i = true) : s.get? i = some c := by
  have hpre := List.isPrefixOf_iff_prefix.mp h
  have hget : s.get? i = (s.drop i).get? 0 := by
    rw [List.get?_drop]
    norm_num
  rcases hd : s.drop i with _ | ⟨x, xs⟩
  · rw [hd] at hpre
    have := List.eq_nil_of_prefix_nil hpre
    simp at this
  · rw [hd] at hpre
    obtain ⟨t, ht⟩ := hpre
    have hx : x = c := by
      have h2 := congrArg List.head? ht
      simp at h2
      exact h2.symm
    rw [hget, hd, hx]
    rfl

lemma occursAt_lt_length (s : Str) (c : Char) (pat : Str) (i : Nat)
    (h : occursAt s (c :: pat) i = true) : i < s.length := by
  have := occursAt_head s c pat i h
  have := List.get?_eq_some.mp this
  exact this.1

end FindLemmas

section FindAuxLemmas

lemma findAux_some_of (s pat : Str) (j : Nat) (h : occursAt s pat j = true) :
    ∀ (fuel start : Nat), start ≤ j → j < start + fuel →
    (∀ k, start ≤ k → k < j → occursAt s pat k = false) →
    findAux s pat start fuel = some j := by
  intro fuel
  induction fuel with
  | zero => intro start h1 h2 h3; omega
  | succ f ih =>
    intro start h1 h2 h3
    show (if occursAt s pat start then some start else findAux s pat (start + 1) f) = some j
    by_cases hs : start = j
    · subst hs
      rw [h]
      simp
    · have hlt : start < j := by omega
      rw [h3 start (le_refl _) hlt]
      show findAux s pat (start + 1) f = some j
      exact ih (start + 1) (by omega) (by omega) (fun k hk1 hk2 => h3 k (by omega) hk2)

lemma findAux_none_of (s pat : Str) :
    ∀ (fuel start : Nat), (∀ k, start ≤ k → occursAt s pat k = false) →
    findAux s pat start fuel = none := by
  intro fuel
  induction fuel with
  | zero => intro start _; rfl
  | succ f ih =>
    intro start h
    show (if occursAt s pat start then some start else findAux s pat (start + 1) f) = none
    rw [h start (le_refl _)]
    show findAux s pat (start + 1) f = none
    exact ih (start + 1) (fun k hk => h k (by omega))

lemma findAux_some_inv (s pat : Str) :
    ∀ (fuel start j : Nat), findAux s pat start fuel = some j →
    occursAt s pat j = true ∧ start ≤ j ∧ ∀ k, start ≤ k → k < j → occursAt s pat k = false := by
  intro fuel
  induction fuel with
  | zero => intro start j h; exact absurd h (by simp [findAux])
  | succ f ih =>
    intro start j h
    rw [show findAux s pat start (f + 1) =
      (if occursAt s pat start then some start else findAux s pat (start + 1) f) from rfl] at h
    by_cases hs : occursAt s pat start = true
    · rw [if_pos hs] at h
      obtain rfl : start = j := by simpa using h
      exact ⟨hs, le_refl _, fun k h1 h2 => by omega⟩
    · rw [if_neg hs] at h
      obtain ⟨h1, h2, h3⟩ := ih (start + 1) j h
      refine ⟨h1, by omega, ?_⟩
      intro k hk1 hk2
      rcases Nat.eq_or_lt_of_le hk1 with rfl | hlt
      · simpa using hs
      · exact h3 k (by omega) hk2

lemma findAux_none_inv (s pat : Str) :
    ∀ (fuel start : Nat), findAux s pat start fuel = none →
    ∀ k, start ≤ k → k < start + fuel → occursAt s pat k = false := by
  intro fuel
  induction fuel with
  | zero => intro start _ k h1 h2; omega
  | succ f ih =>
    intro start h k h1 h2
    rw [show findAux s pat start (f + 1) =
      (if occursAt s pat start then some start else findAux s pat (start + 1) f) from rfl] at h
    by_cases hs : occursAt s pat start = true
    · rw [if_pos hs] at h; exact absurd h (by simp)
    · rw [if_neg hs] at h
      rcases Nat.eq_or_lt_of_le h1 with rfl | hlt
      · simpa using hs
      · exact ih (start + 1) h k (by omega) (by omega)

lemma pyFindN_none_iff (s pat : Str) (start : Nat) (hp : pat ≠ []) :
    pyFindN s pat start = none ↔ ∀ k, start ≤ k → occursAt s pat k = false := by
  constructor
  · intro h k hk
    by_cases hk2 : k < start + (s.length + 1 - start)
    · exact findAux_none_inv s pat _ start h k hk hk2
    · exact occursAt_beyond s pat k hp (by omega)
  · intro h
    exact findAux_none_of s pat _ start (fun k hk => h k hk)

lemma pyFindN_some_of (s pat : Str) (j start : Nat) (h : occursAt s pat j = true)
    (hj : j ≤ s.length) (hstart : start ≤ j)
    (hmin : ∀ k, start ≤ k → k < j → occursAt s pat k = false) :
    pyFindN s pat start = some j :=
  findAux_some_of s pat j h _ start hstart (by omega) hmin

lemma pyFindN_some_inv (s pat : Str) (start j : Nat) (h : pyFindN s pat start = some j) :
    occursAt s pat j = true ∧ start ≤ j ∧
    ∀ k, start ≤ k → k < j → occursAt s pat k = false :=
  findAux_some_inv s pat _ start j h

lemma rfindAux_some_of (s pat : Str) (j : Nat) (h : occursAt s pat j = true) :
    ∀ (i : Nat), j ≤ i → (∀ k, j < k → k ≤ i → occursAt s pat k = false) →
    rfindAux s pat i = some j := by
  intro i
  induction i with
  | zero =>
    intro h1 _
    obtain rfl : j = 0 := by omega
    show (if occursAt s pat 0 then some 0 else none) = some 0
    rw [h]
    rfl
  | succ i ih =>
    intro h1 h2
    show (if occursAt s pat (i + 1) then some (i + 1) else rfindAux s pat i) = some j
    by_cases hs : j = i + 1
    · subst hs
      rw [h]
      rfl
    · rw [h2 (i + 1) (by omega) (le_refl _)]
      show rfindAux s pat i = some j
      exact ih (by omega) (fun k hk1 hk2 => h2 k hk1 (by omega))

lemma rfindAux_none_inv (s pat : Str) :
    ∀ (i : Nat), rfindAux s pat i = none → ∀ k, k ≤ i → occursAt s pat k = false := by
  intro i
  induction i with
  | zero =>
    intro h k hk
    obtain rfl : k = 0 := by omega
    rw [show rfindAux s pat 0 = (if occursAt s pat 0 then some 0 else none) from rfl] at h
    by_cases hs : occursAt s pat 0 = true
    · rw [if_pos hs] at h; exact absurd h (by simp)
    · simpa using hs
  | succ i ih =>
    intro h k hk
    rw [show rfindAux s pat (i + 1) =
      (if occursAt s pat (i + 1) then some (i + 1) else rfindAux s pat i) from rfl] at h
    by_cases hs : occursAt s pat (i + 1) = true
    · rw [if_pos hs] at h; exact absurd h (by simp)
    · rw [if_neg hs] at h
      rcases Nat.eq_or_lt_of_le hk with rfl | hlt
      · simpa using hs
      · exact ih h k (by omega)

lemma rfindAux_some_inv (s pat : Str) :
    ∀ (i j : Nat), rfindAux s pat i = some j →
    occursAt s pat j = true ∧ j ≤ i ∧ ∀ k, j < k → k ≤ i → occursAt s pat k = false := by
  intro i
  induction i with
  | zero =>
    intro j h
    rw [show rfindAux s pat 0 = (if occursAt s pat 0 then some 0 else none) from rfl] at h
    by_cases hs : occursAt s pat 0 = true
    · rw [if_pos hs] at h
      obtain rfl : (0 : Nat) = j := by simpa using h
      exact ⟨hs, le_refl _, fun k h1 h2 => by omega⟩
    · rw [if_neg hs] at h
      exact absurd h (by simp)
  | succ i ih =>
    intro j h
    rw [show rfindAux s pat (i + 1) =
      (if occursAt s pat (i + 1) then some (i + 1) else rfindAux s pat i) from rfl] at h
    by_cases hs : occursAt s pat (i + 1) = true
    · rw [if_pos hs] at h
      obtain rfl : i + 1 = j := by simpa using h
      exact ⟨hs, le_refl _, fun k h1 h2 => by omega⟩
    · rw [if_neg hs] at h
      obtain ⟨h1, h2, h3⟩ := ih j h
      refine ⟨h1, by omega, ?_⟩
      intro k hk1 hk2
      rcases Nat.eq_or_lt_of_le hk2 with rfl | hlt
      · simpa using hs
      · exact h3 k hk1 (by omega)

end FindAuxLemmas

section SliceBridgeLemmas

lemma sliceBound_natCast (len m : Nat) : sliceBound len (m : Int) = min m len := by
  unfold sliceBound
  rw [if_neg (by omega)]
  simp

lemma pySlice_natCast (s : Str) (m n : Nat) (hn : n ≤ s.length) :
    pySlice s (m : Int) (n : Int) = (s.take n).drop m := by
  unfold pySlice
  rw [sliceBound_natCast, sliceBound_natCast, Nat.min_eq_left hn]
  rcases le_or_lt m s.length with h | h
  · rw [Nat.min_eq_left h]
  · rw [Nat.min_eq_right (by omega)]
    rw [List.drop_eq_nil_of_le (by rw [List.length_take]; omega)]
    rw [List.drop_eq_nil_of_le (by rw [List.length_take]; omega)]

lemma pySlice_nil (a b : Int) : pySlice [] a b = [] := by
  unfold pySlice
  simp

lemma pySlice_to_zero (s : Str) (a : Int) : pySlice s a (0 : Int) = [] := by
  unfold pySlice
  rw [show sliceBound s.length 0 = 0 from by unfold sliceBound; rw [if_neg (by omega)]; simp]
  simp

lemma pySlice_eq_nil_of_le (s : Str) (a b : Int)
    (h : sliceBound s.length b ≤ sliceBound s.length a) : pySlice s a b = [] := by
  unfold pySlice
  apply List.drop_eq_nil_of_le
  exact le_trans (by simp) h

lemma pySlice_extract (a b c : Str) :
    pySlice (a ++ (b ++ c)) ((a.length : Nat) : Int) (((a.length + b.length : Nat)) : Int) = b := by
  rw [pySlice_natCast _ _ _ (by simp)]
  rw [show a ++ (b ++ c) = (a ++ b) ++ c by simp]
  rw [show a.length + b.length = (a ++ b).length by simp]
  rw [List.take_left]
  exact List.drop_left a b

lemma pyStrip_nil : pyStrip [] = [] := rfl

lemma loads_nil : loads [] = none := rfl

lemma pyStrip_ends (a : Char) (m : Str) (b : Char)
    (ha : isStripWs a = false) (hb : isStripWs b = false) :
    pyStrip (a :: (m ++ [b])) = a :: (m ++ [b]) := by
  unfold pyStrip
  rw [List.dropWhile_cons, if_neg (by simp [ha])]
  rw [show (a :: (m ++ [b])).reverse = b :: (a :: m).reverse by simp]
  rw [List.dropWhile_cons, if_neg (by simp [hb])]
  simp

lemma pyFind_matchN (s pat : Str) (m : Nat) :
    pyFind s pat (m : Int) =
      (match pyFindN s pat m with | some i => ((i : Int)) | none => -1) := by
  unfold pyFind
  rw [if_neg (by omega), Int.toNat_natCast]

lemma pyFind_eq_of_some (s pat : Str) (m j : Nat) (h : pyFindN s pat m = some j) :
    pyFind s pat (m : Int) = (j : Int) := by
  rw [pyFind_matchN, h]

lemma pyFind_eq_of_none (s pat : Str) (m : Nat) (h : pyFindN s pat m = none) :
    pyFind s pat (m : Int) = -1 := by
  rw [pyFind_matchN, h]

lemma pyRFind_eq_of_some (s pat : Str) (j : Nat) (h : pyRFindN s pat = some j) :
    pyRFind s pat = (j : Int) := by
  unfold pyRFind
  rw [h]

lemma pyRFind_eq_of_none (s pat : Str) (h : pyRFindN s pat = none) :
    pyRFind s pat = -1 := by
  unfold pyRFind
  rw [h]

lemma pyFindN_none_mono (s pat : Str) (m : Nat) (hp : pat ≠ [])
    (h : pyFindN s pat 0 = none) : pyFindN s pat m = none := by
  rw [pyFindN_none_iff s pat m hp]
  intro k _
  exact (pyFindN_none_iff s pat 0 hp).mp h k (by omega)

lemma occursAt_single_iff (s : Str) (c : Char) (k : Nat) :
    occursAt s [c] k = true ↔ s.get? k = some c := by
  constructor
  · exact occursAt_head s c [] k
  · intro h
    have h0 : (s.drop k).get? 0 = some c := by
      rw [List.get?_drop]
      simpa using h
    rcases hd : s.drop k with _ | ⟨x, xs⟩
    · rw [hd] at h0; exact absurd h0 (by simp)
    · rw [hd] at h0
      have hx : x = c := by simpa using h0
      show ([c].isPrefixOf (s.drop k)) = true
      rw [hd, ← hx]
      simp [List.isPrefixOf]

lemma occursAt_single_eq (s₁ s₂ : Str) (c : Char) (k₁ k₂ : Nat)
    (h : s₁.get? k₁ = s₂.get? k₂) : occursAt s₁ [c] k₁ = occursAt s₂ [c] k₂ := by
  rcases Bool.eq_false_or_eq_true (occursAt s₁ [c] k₁) with h1 | h1
  · rw [h1, (occursAt_single_iff s₂ c k₂).mpr
      (by rw [← h]; exact (occursAt_single_iff s₁ c k₁).mp h1)]
  · rw [h1]
    rcases Bool.eq_false_or_eq_true (occursAt s₂ [c] k₂) with h2 | h2
    · exact absurd ((occursAt_single_iff s₁ c k₁).mpr
        (by rw [h]; exact (occursAt_single_iff s₂ c k₂).mp h2)) (by simp [h1])
    · rw [h2]

lemma occursAt_single_append (s : Str) (c t : Char) (ht : c ≠ t) (k : Nat) :
    occursAt (s ++ [t]) [c] k = occursAt s [c] k := by
  rcases Nat.lt_or_ge k s.length with h | h
  · exact occursAt_single_eq _ _ c k k (List.get?_append h)
  · rw [occursAt_beyond s [c] k (by simp) h]
    rcases Nat.eq_or_lt_of_le h with rfl | hlt
    · rcases Bool.eq_false_or_eq_true (occursAt (s ++ [t]) [c] s.length) with h2 | h2
      · have h3 := (occursAt_single_iff _ c _).mp h2
        rw [List.get?_append_right (le_refl _)] at h3
        simp at h3
        exact absurd h3.symm ht
      · exact h2
    · exact occursAt_beyond _ [c] k (by simp) (by simp; omega)

lemma pyFindN_append_single (s : Str) (c t : Char) (ht : c ≠ t) :
    pyFindN (s ++ [t]) [c] 0 = pyFindN s [c] 0 := by
  rcases h : pyFindN s [c] 0 with _ | f
  · rw [pyFindN_none_iff _ _ _ (by simp)]
    intro k _
    rw [occursAt_single_append s c t ht]
    exact (pyFindN_none_iff s [c] 0 (by simp)).mp h k (by omega)
  · obtain ⟨h1, -, h3⟩ := pyFindN_some_inv s [c] 0 f h
    apply pyFindN_some_of
    · rw [occursAt_single_append s c t ht]; exact h1
    · have := occursAt_lt_length s c [] f h1
      simp
      omega
    · omega
    · intro k hk1 hk2
      rw [occursAt_single_append s c t ht]
      exact h3 k hk1 hk2

lemma pyRFindN_append_single (s : Str) (c t : Char) (ht : c ≠ t) :
    pyRFindN (s ++ [t]) [c] = pyRFindN s [c] := by
  show rfindAux (s ++ [t]) [c] (s ++ [t]).length = rfindAux s [c] s.length
  rcases h : rfindAux s [c] s.length with _ | r
  · have hall := rfindAux_none_inv s [c] s.length h
    rw [show (s ++ [t]).length = s.length + 1 by simp]
    have : ∀ k, k ≤ s.length + 1 → occursAt (s ++ [t]) [c] k = false := by
      intro k hk
      rcases Nat.lt_or_ge k s.length with h2 | h2
      · rw [occursAt_single_append s c t ht]
        exact hall k (by omega)
      · rcases Nat.eq_or_lt_of_le h2 with rfl | h3
        · rw [occursAt_single_append s c t ht]
          exact occursAt_beyond s [c] s.length (by simp) (le_refl _)
        · exact occursAt_beyond _ [c] k (by simp) (by simp; omega)
    clear h hall
    generalize s.length + 1 = N at this ⊢
    induction N with
    | zero =>
      show (if occursAt (s ++ [t]) [c] 0 then some 0 else none) = none
      rw [this 0 (by omega)]
      rfl
    | succ i ih =>
      show (if occursAt (s ++ [t]) [c] (i + 1) then some (i + 1) else
        rfindAux (s ++ [t]) [c] i) = none
      rw [this (i + 1) (le_refl _), if_neg (by simp)]
      exact ih (fun k hk => this k (by omega))
  · obtain ⟨h1, h2, h3⟩ := rfindAux_some_inv s [c] s.length r h
    rw [show (s ++ [t]).length = s.length + 1 by simp]
    apply rfindAux_some_of
    · rw [occursAt_single_append s c t ht]; exact h1
    · omega
    · intro k hk1 hk2
      rcases Nat.lt_or_ge k s.length with h4 | h4
      · rw [occursAt_single_append s c t ht]
        exact h3 k hk1 (by omega)
      · rcases Nat.eq_or_lt_of_le h4 with rfl | h5
        · rw [occursAt_single_append s c t ht]
          exact occursAt_beyond s [c] s.length (by simp) (le_refl _)
        · exact occursAt_beyond _ [c] k (by simp) (by simp; omega)

end SliceBridgeLemmas

section Refinement

lemma brace_step_append_tick (C : Str) :
    loads (pyStrip (pySlice (C ++ ['`']) (pyFind (C ++ ['`']) ['{'] 0)
      (pyRFind (C ++ ['`']) ['}'] + 1))) = braceSpanLoads C := by
  have hf0 := pyFindN_append_single C '{' '`' (by decide)
  have hr0 := pyRFindN_append_single C '}' '`' (by decide)
  simp only [braceSpanLoads]
  rcases h1 : pyFindN C ['{'] 0 with _ | f <;> rw [h1] at hf0 <;>
    rcases h2 : pyRFindN C ['}'] with _ | r <;> rw [h2] at hr0 <;> dsimp only
  · have ha : pyFind (C ++ ['`']) ['{'] 0 = -1 := by
      have := pyFind_eq_of_none (C ++ ['`']) ['{'] 0 hf0
      rwa [Nat.cast_zero] at this
    rw [ha, pyRFind_eq_of_none _ _ hr0,
      show (-1 : Int) + 1 = 0 from by norm_num, pySlice_to_zero]
    rfl
  · have ha : pyFind (C ++ ['`']) ['{'] 0 = -1 := by
      have := pyFind_eq_of_none (C ++ ['`']) ['{'] 0 hf0
      rwa [Nat.cast_zero] at this
    have hr0' : rfindAux C ['}'] C.length = some r := h2
    have hocc := (rfindAux_some_inv C ['}'] C.length r hr0').1
    have hrlen : r < C.length := occursAt_lt_length C '}' [] r hocc
    rw [ha, pyRFind_eq_of_some _ _ r hr0,
      show ((r : Int) + 1) = ((r + 1 : Nat) : Int) from by push_cast; ring]
    rw [pySlice_eq_nil_of_le]
    · rfl
    · rw [sliceBound_natCast, show (C ++ ['`']).length = C.length + 1 from by simp]
      rw [show sliceBound (C.length + 1) (-1) = C.length from by
        unfold sliceBound; rw [if_pos (by norm_num)]; push_cast; omega]
      omega
  · have ha : pyFind (C ++ ['`']) ['{'] 0 = (f : Int) := by
      have := pyFind_eq_of_some (C ++ ['`']) ['{'] 0 f hf0
      rwa [Nat.cast_zero] at this
    rw [ha, pyRFind_eq_of_none _ _ hr0,
      show (-1 : Int) + 1 = 0 from by norm_num, pySlice_to_zero]
    rfl
  · have ha : pyFind (C ++ ['`']) ['{'] 0 = (f : Int) := by
      have := pyFind_eq_of_some (C ++ ['`']) ['{'] 0 f hf0
      rwa [Nat.cast_zero] at this
    have hr0' : rfindAux C ['}'] C.length = some r := h2
    have hocc := (rfindAux_some_inv C ['}'] C.length r hr0').1
    have hrlen : r < C.length := occursAt_lt_length C '}' [] r hocc
    rw [ha, pyRFind_eq_of_some _ _ r hr0,
      show ((r : Int) + 1) = ((r + 1 : Nat) : Int) from by push_cast; ring]
    have hsl : pySlice (C ++ ['`']) ((f : Nat) : Int) (((r + 1 : Nat)) : Int)
        = pySlice C ((f : Nat) : Int) (((r + 1 : Nat)) : Int) := by
      rw [pySlice_natCast _ _ _ (by simp; omega), pySlice_natCast _ _ _ (by omega)]
      rw [List.take_append_eq_append_take]
      rw [show r + 1 - C.length = 0 from by omega]
      simp
    rw [hsl]

lemma parse_json_eq_amended (text : Str) :
    parse_json text = extract_spec_amended text := by
  simp only [parse_json, extract_spec_amended]
  rcases h0 : pyFindN text fenceStr 0 with _ | i
  · dsimp only
    have h1 : pyFind text fenceStr 0 = -1 := by
      have := pyFind_eq_of_none text fenceStr 0 h0
      rwa [Nat.cast_zero] at this
    rw [h1, show (-1 : Int) + 3 = 2 from by norm_num]
    have h2 : pyFind text fenceStr 2 = -1 := by
      have := pyFind_eq_of_none text fenceStr 2
        (pyFindN_none_mono text fenceStr 2 (by decide) h0)
      rwa [Nat.cast_ofNat] at this
    rw [h2, show (-1 : Int) + 1 = 0 from by norm_num, pySlice_to_zero, pySlice_nil]
    rfl
  · dsimp only
    have h1 : pyFind text fenceStr 0 = (i : Int) := by
      have := pyFind_eq_of_some text fenceStr 0 i h0
      rwa [Nat.cast_zero] at this
    rw [h1]
    rcases h3 : pyFindN text fenceStr (i + 3) with _ | j
    · dsimp only
      rw [show ((i : Int) + 3) = ((i + 3 : Nat) : Int) from by push_cast; ring]
      rw [pyFind_eq_of_none text fenceStr (i + 3) h3,
        show (-1 : Int) + 1 = 0 from by norm_num, pySlice_to_zero, pySlice_nil]
      rfl
    · dsimp only
      rw [show ((i : Int) + 3) = ((i + 3 : Nat) : Int) from by push_cast; ring]
      rw [pyFind_eq_of_some text fenceStr (i + 3) j h3,
        show ((j : Int) + 1) = ((j + 1 : Nat) : Int) from by push_cast; ring]
      obtain ⟨hocc, hij, -⟩ := pyFindN_some_inv text fenceStr (i + 3) j h3
      have hocc' : occursAt text ('`' :: ['`', '`']) j = true := hocc
      have hgj : text.get? j = some '`' := occursAt_head text '`' ['`', '`'] j hocc'
      have hjlen : j < text.length := occursAt_lt_length text '`' ['`', '`'] j hocc'
      have hT2 : pySlice text ((i + 3 : Nat) : Int) ((j + 1 : Nat) : Int)
          = pySlice text ((i + 3 : Nat) : Int) ((j : Nat) : Int) ++ ['`'] := by
        rw [pySlice_natCast _ _ _ (by omega), pySlice_natCast _ _ _ (by omega)]
        have hgj' : text[j]? = some '`' := by rw [← List.get?_eq_getElem?]; exact hgj
        rw [List.take_succ, hgj']
        rw [List.drop_append_eq_append_drop]
        rw [show i + 3 - (text.take j).length = 0 from by rw [List.length_take]; omega]
        rfl
      rw [hT2]
      exact brace_step_append_tick (pySlice text ((i + 3 : Nat) : Int) ((j : Nat) : Int))

end Refinement

section RoundTrip

lemma occursAt_false_of_get (s : Str) (c : Char) (k : Nat) (x : Char)
    (hx : s.get? k = some x) (hne : x ≠ c) : occursAt s [c] k = false := by
  rcases Bool.eq_false_or_eq_true (occursAt s [c] k) with htr | hf
  · have hg := (occursAt_single_iff s c k).mp htr
    rw [hx] at hg
    exact absurd (by simpa using hg) hne
  · exact hf

lemma braceSpanLoads_mid (R : List (String × Val)) :
    braceSpanLoads ('\n' :: (dumpsVal (.obj R) ++ ['\n'])) = some (.obj R) := by
  have hD : dumpsVal (.obj R) = '{' :: (dumpsObj R ++ ['}']) := rfl
  have hf : pyFindN ('\n' :: (dumpsVal (.obj R) ++ ['\n'])) ['{'] 0 = some 1 := by
    apply pyFindN_some_of
    · rw [occursAt_single_iff, hD]
      rfl
    · simp
    · omega
    · intro k _ hk
      obtain rfl : k = 0 := by omega
      exact occursAt_false_of_get _ '{' 0 '\n' rfl (by decide)
  have hlenD : (dumpsObj R).length + 2 = (dumpsVal (.obj R)).length := by
    rw [hD]; simp
  have hr : pyRFindN ('\n' :: (dumpsVal (.obj R) ++ ['\n'])) ['}']
      = some (dumpsVal (.obj R)).length := by
    show rfindAux _ ['}'] ('\n' :: (dumpsVal (.obj R) ++ ['\n'])).length = _
    apply rfindAux_some_of
    · have hsp : '\n' :: (dumpsVal (.obj R) ++ ['\n'])
          = ('\n' :: '{' :: dumpsObj R) ++ ('}' :: ['\n']) := by
        rw [hD]; simp
      rw [hsp]
      have := occursAt_append_add ('\n' :: '{' :: dumpsObj R) ('}' :: ['\n']) ['}'] 0
      rw [show ('\n' :: '{' :: dumpsObj R).length + 0 = (dumpsVal (.obj R)).length from by
        simp; omega] at this
      rw [this]
      rfl
    · simp
      omega
    · intro k hk1 hk2
      have hlenmid : ('\n' :: (dumpsVal (Val.obj R) ++ ['\n'])).length
          = (dumpsVal (Val.obj R)).length + 2 := by simp
      rcases Nat.lt_or_ge k ((dumpsVal (Val.obj R)).length + 2) with hlt | hge
      · have hk3 : k = (dumpsVal (Val.obj R)).length + 1 := by omega
        subst hk3
        apply occursAt_false_of_get _ '}' _ '\n' _ (by decide)
        rw [show '\n' :: (dumpsVal (Val.obj R) ++ ['\n'])
          = ('\n' :: dumpsVal (Val.obj R)) ++ ['\n'] from by simp]
        rw [List.get?_append_right (by simp)]
        simp
      · exact occursAt_beyond _ _ _ (by simp) (by omega)
  simp only [braceSpanLoads]
  rw [hf, hr]
  dsimp only
  rw [show (((dumpsVal (.obj R)).length : Int) + 1)
    = (((dumpsVal (.obj R)).length + 1 : Nat) : Int) from by push_cast; ring]
  have hslice : pySlice ('\n' :: (dumpsVal (.obj R) ++ ['\n'])) ((1 : Nat) : Int)
      (((dumpsVal (.obj R)).length + 1 : Nat) : Int) = dumpsVal (.obj R) := by
    have := pySlice_extract ['\n'] (dumpsVal (.obj R)) ['\n']
    simp only [List.length_singleton] at this
    rw [show (dumpsVal (.obj R)).length + 1 = 1 + (dumpsVal (.obj R)).length from by omega]
    exact this
  rw [hslice]
  have hstrip : pyStrip (dumpsVal (.obj R)) = dumpsVal (.obj R) := by
    rw [hD]
    exact pyStrip_ends '{' (dumpsObj R) '}' (by decide) (by decide)
  rw [hstrip]
  exact loads_dumpsVal_obj R

lemma round_trip_core (R : List (String × Val)) (p1 p2 : Str)
    (h1 : '`' ∉ p1) (h2 : '`' ∉ dumpsVal (.obj R)) :
    parse_json (p1 ++ (wrapFence (dumpsVal (.obj R)) ++ p2)) = some (.obj R) := by
  have hsplit2 : p1 ++ (wrapFence (dumpsVal (.obj R)) ++ p2)
      = (p1 ++ fenceStr) ++ (('\n' :: (dumpsVal (.obj R) ++ ['\n'])) ++ (fenceStr ++ p2)) := by
    simp [wrapFence, List.append_assoc]
  have hfind0 : pyFindN (p1 ++ (wrapFence (dumpsVal (.obj R)) ++ p2)) fenceStr 0
      = some p1.length := by
    apply pyFindN_some_of
    · have := occursAt_append_add p1 (wrapFence (dumpsVal (.obj R)) ++ p2) fenceStr 0
      rw [Nat.add_zero] at this
      rw [this]
      rw [show wrapFence (dumpsVal (.obj R)) ++ p2
        = fenceStr ++ (('\n' :: (dumpsVal (.obj R) ++ '\n' :: fenceStr)) ++ p2) from by
          simp [wrapFence, List.append_assoc]]
      exact occursAt_zero_append [] fenceStr _
    · simp
    · omega
    · intro k _ hk
      rcases Bool.eq_false_or_eq_true
        (occursAt (p1 ++ (wrapFence (dumpsVal (.obj R)) ++ p2)) fenceStr k) with htr | hf
      · exfalso
        have hg := occursAt_head _ '`' ['`', '`'] k htr
        rw [List.get?_append hk] at hg
        exact h1 (List.get?_mem hg)
      · exact hf
  have hfind3 : pyFindN (p1 ++ (wrapFence (dumpsVal (.obj R)) ++ p2)) fenceStr (p1.length + 3)
      = some (p1.length + 3 + ((dumpsVal (.obj R)).length + 2)) := by
    apply pyFindN_some_of
    · rw [hsplit2]
      rw [show (p1 ++ fenceStr) ++ (('\n' :: (dumpsVal (.obj R) ++ ['\n'])) ++ (fenceStr ++ p2))
        = ((p1 ++ fenceStr) ++ ('\n' :: (dumpsVal (.obj R) ++ ['\n']))) ++ (fenceStr ++ p2) from by
          simp [List.append_assoc]]
      have := occursAt_append_add ((p1 ++ fenceStr) ++ ('\n' :: (dumpsVal (.obj R) ++ ['\n'])))
        (fenceStr ++ p2) fenceStr 0
      rw [show ((p1 ++ fenceStr) ++ ('\n' :: (dumpsVal (.obj R) ++ ['\n']))).length + 0
        = p1.length + 3 + ((dumpsVal (.obj R)).length + 2) from by
          simp [fenceStr]; omega] at this
      rw [this]
      exact occursAt_zero_append [] fenceStr _
    · rw [hsplit2]
      simp [fenceStr]
      omega
    · omega
    · intro k hk1 hk2
      rcases Bool.eq_false_or_eq_true
        (occursAt (p1 ++ (wrapFence (dumpsVal (.obj R)) ++ p2)) fenceStr k) with htr | hf
      · exfalso
        have hg := occursAt_head _ '`' ['`', '`'] k htr
        rw [hsplit2] at hg
        rw [List.get?_append_right (by simp [fenceStr]; omega)] at hg
        rw [List.get?_append (by simp [fenceStr]; omega)] at hg
        have hmem : '`' ∈ ('\n' :: (dumpsVal (.obj R) ++ ['\n'])) := List.get?_mem hg
        rcases List.mem_cons.mp hmem with hcon | hmem2
        · exact absurd hcon (by decide)
        · rcases List.mem_append.mp hmem2 with hmem3 | hmem4
          · exact h2 hmem3
          · exact absurd (List.mem_singleton.mp hmem4) (by decide)
      · exact hf
  rw [parse_json_eq_amended]
  simp only [extract_spec_amended]
  rw [hfind0]
  dsimp only
  rw [hfind3]
  dsimp only
  rw [show ((p1.length : Int) + 3) = ((p1.length + 3 : Nat) : Int) from by push_cast; ring]
  have hsl : pySlice (p1 ++ (wrapFence (dumpsVal (.obj R)) ++ p2))
      ((p1.length + 3 : Nat) : Int)
      ((p1.length + 3 + ((dumpsVal (.obj R)).length + 2) : Nat) : Int)
      = '\n' :: (dumpsVal (.obj R) ++ ['\n']) := by
    rw [hsplit2]
    have := pySlice_extract (p1 ++ fenceStr) ('\n' :: (dumpsVal (.obj R) ++ ['\n']))
      (fenceStr ++ p2)
    rw [show (p1 ++ fenceStr).length = p1.length + 3 from by simp [fenceStr]] at this
    rw [show p1.length + 3 + ('\n' :: (dumpsVal (.obj R) ++ ['\n'])).length
      = p1.length + 3 + ((dumpsVal (.obj R)).length + 2) from by simp] at this
    exact this
  rw [hsl]
  exact braceSpanLoads_mid R

end RoundTrip

section ClaimsExtraction

/-- C4 counterexample: the spec's algorithm (`extract_spec`, which falls back
to the whole text as search space when no fenced block exists) disagrees with
the code's `parse_json` (lines 31-38 of `agents.py`): on bare structured text
with no fence, and on text with an opening fence but no closing fence, the
spec's algorithm extracts the record while the code fails. -/
theorem parse_json_extraction_counterexample :
    parse_json (("\x7b\"x\": 1\x7d").toList) = none ∧
    extract_spec (("\x7b\"x\": 1\x7d").toList) = some (.obj [("x", Val.int 1)]) ∧
    parse_json (("```\n\x7b\"x\": 1\x7d").toList) = none ∧
    extract_spec (("```\n\x7b\"x\": 1\x7d").toList) = some (.obj [("x", Val.int 1)]) :=
  ⟨rfl, rfl, rfl, rfl⟩

/-- C4 (amended): `parse_json` implements the spec's extraction algorithm with
the no-fence clause amended to fail-instead-of-whole-text: when the text has no
complete triple-backtick fenced block the extraction fails, and otherwise the
search space is the first fenced block's content, within which the span from
the first `{` to the last `}` inclusive is parsed, failing exactly when that
parse fails. -/
theorem parse_json_refines_amended_extraction (text : Str) :
    parse_json text = extract_spec_amended text :=
  parse_json_eq_amended text

/-- C5 counterexample: with prose containing a stray triple-backtick before
the fenced block, or with a record whose serialization itself contains a
triple-backtick string, extraction does not recover the record — both inputs
fail to parse, so the round trip does not hold for arbitrary prose and
records. -/
theorem parse_json_round_trip_counterexample :
    parse_json (("see ``` here ").toList ++
      wrapFence (dumpsVal (.obj [("a", Val.int 1)])) ++ ([] : Str)) = none ∧
    parse_json (("x ").toList ++
      wrapFence (dumpsVal (.obj [("a", Val.str "```")])) ++ ([] : Str)) = none :=
  ⟨rfl, rfl⟩

/-- C5 (amended): for every record `R`, when the prose before the fenced
block contains no backtick character and the serialization of `R` contains no
backtick character, serializing `R`, wrapping it in a triple-backtick fenced
block and surrounding the block with such prose yields a text from which
`parse_json` recovers exactly `R` (the prose after the block is arbitrary). -/
theorem parse_json_round_trip (R : List (String × Val)) (p1 p2 : Str)
    (h1 : '`' ∉ p1) (h2 : '`' ∉ dumpsVal (.obj R)) :
    parse_json (p1 ++ wrapFence (dumpsVal (.obj R)) ++ p2) = some (.obj R) := by
  have h := round_trip_core R p1 p2 h1 h2
  rwa [← List.append_assoc] at h

/-- C5 witness: the round trip at a concrete record and concrete prose. -/
theorem parse_json_round_trip_witness :
    '`' ∉ ("Result: ").toList ∧ '`' ∉ dumpsVal (.obj [("x", Val.int 1)]) ∧
    parse_json (("Result: ").toList ++ wrapFence (dumpsVal (.obj [("x", Val.int 1)])) ++
      (" done").toList) = some (.obj [("x", Val.int 1)]) :=
  ⟨by decide, by decide,
    parse_json_round_trip [("x", Val.int 1)] (("Result: ").toList) ((" done").toList)
      (by decide) (by decide)⟩

/-- C6: when extraction fails, `run_agent` does not propagate the failure: it
returns the `{error, raw_output}` sentinel with the original concatenated
output text preserved verbatim under `raw_output`; and extraction does fail on
every text with no fenced block at all (in particular on text with no fence
and no braces). -/
theorem run_agent_sentinel_on_extraction_failure :
    (∀ text, parse_json text = none →
      run_agent text = .obj [("error", .str "Failed to parse JSON"),
        ("raw_output", .str (String.mk text))]) ∧
    (∀ text, pyFindN text fenceStr 0 = none → parse_json text = none) := by
  constructor
  · intro text h
    rw [run_agent.eq_def, h]
  · intro text h
    rw [parse_json_eq_amended, extract_spec_amended.eq_def, h]

/-- C6 witness: on the fence-free, brace-free text `"hello"`, extraction fails
and `run_agent` returns the sentinel with the verbatim raw output. -/
theorem run_agent_sentinel_on_extraction_failure_witness :
    run_agent (("hello").toList) = .obj [("error", .str "Failed to parse JSON"),
      ("raw_output", .str "hello")] :=
  run_agent_sentinel_on_extraction_failure.1 (("hello").toList)
    (run_agent_sentinel_on_extraction_failure.2 (("hello").toList) rfl)

end ClaimsExtraction
